import Mathlib

/-!
Verification of the izerop-cli sync core against its specification.

The Go sources are shallowly embedded: strings are lists of unicode
characters (type GoStr), Go maps are association lists with first-match
lookup, int64 values are Int, byte slices are lists of Nat, and every
fallible external effect (HTTP call, rename, copy) is an oracle function
supplied as a parameter.  The SHA-256 helper HashFile is modelled by an
uninterpreted hash oracle hashHex, since none of the verified properties
depend on the internals of the digest.
-/

set_option maxHeartbeats 1000000

/-- Go strings, modelled as lists of characters. -/
abbrev GoStr := List Char

/-- File contents, modelled as lists of byte values. -/
abbrev Bytes := List Nat

/-- strings.Contains: sub occurs contiguously in s. -/
def goContainsSub (s sub : GoStr) : Bool :=
  s.tails.any (fun t => sub.isPrefixOf t)

/-- strings.TrimPrefix: drop pre from the front of s when it is a prefix. -/
def goTrimPre (s pre : GoStr) : GoStr :=
  if pre.isPrefixOf s then s.drop pre.length else s

/-- strings.TrimSuffix: drop suf from the end of s when it is a suffix. -/
def goTrimSuf (s suf : GoStr) : GoStr :=
  if suf.isSuffixOf s then s.take (s.length - suf.length) else s

/-- filepath.Base on slash-separated paths: the last element of the path,
    after trailing slashes are removed; empty path gives a dot, an
    all-slash path gives a slash. -/
def goBase (p : GoStr) : GoStr :=
  if p = [] then ['.']
  else
    let q := (p.reverse.dropWhile (fun c => c = '/')).reverse
    if q = [] then ['/']
    else (q.reverse.takeWhile (fun c => c ≠ '/')).reverse

/-- filepath.Ext as a split: the pair (base, ext) with base ++ ext = p and
    ext the suffix beginning at the final dot in the final slash-separated
    element (empty when that element has no dot). -/
def goExtSplit (p : GoStr) : GoStr × GoStr :=
  match (p.reverse.takeWhile (fun c => c ≠ '/')).findIdx? (fun c => c = '.') with
  | none => (p, [])
  | some i => p.splitAt (p.length - (i + 1))

/-- filepath.Ext: the extension of the final path element. -/
def goExt (p : GoStr) : GoStr := (goExtSplit p).2

/-- The conflict sidecar name used by the engine: base.conflict-ext when the
    path has an extension, path.conflict otherwise.  Mirrors the
    TrimSuffix plus Sprintf construction in handleFileChange. -/
def conflictName (p : GoStr) : GoStr :=
  let ext := goExt p
  let base := goTrimSuf p ext
  if ext = [] then p ++ (".conflict".toList)
  else base ++ (".conflict".toList) ++ ext

/-- The temporary download path used by the engine: path.izerop-tmp. -/
def tmpName (p : GoStr) : GoStr := p ++ (".izerop-tmp".toList)

/-- Association-list lookup with first-match semantics, modelling Go map
    indexing. -/
def lookupA {β : Type} (m : List (GoStr × β)) (k : GoStr) : Option β :=
  match m with
  | [] => none
  | (k', v) :: rest => if k' = k then some v else lookupA rest k

/-- Association-list erase, modelling Go map delete. -/
def eraseA {β : Type} (m : List (GoStr × β)) (k : GoStr) : List (GoStr × β) :=
  m.filter (fun kv => kv.1 ≠ k)

/-- Association-list insert or replace, modelling Go map assignment. -/
def insertA {β : Type} (m : List (GoStr × β)) (k : GoStr) (v : β) : List (GoStr × β) :=
  (k, v) :: eraseA m k

/-!
Ignore matcher (pkg/sync/ignore.go).

filepath.Match is embedded following the scanChunk and matchChunk loops of
the Go standard library; rune decoding degenerates to single characters
because GoStr is already a list of unicode scalars.  Loops that consume at
least one pattern character per iteration are given fuel equal to the
pattern length plus one, which is always sufficient.
-/

/-- Result of matchChunk: a successful match with the rest of the name, a
    plain mismatch, or a malformed pattern. -/
inductive ChunkRes where
  | ok (rest : GoStr)
  | fail
  | errBad
deriving Repr, DecidableEq

/-- getEsc of the standard library: read one possibly escaped character of
    a character class; none models ErrBadPattern. -/
def getEsc (chunk : GoStr) : Option (Char × GoStr) :=
  match chunk with
  | [] => none
  | c :: rest =>
    if c = '-' ∨ c = ']' then none
    else if c = '\\' then
      match rest with
      | [] => none
      | r :: rest' => if rest' = [] then none else some (r, rest')
    else if rest = [] then none else some (c, rest)

/-- The range loop inside the character-class case of matchChunk. -/
def parseRanges (r : Char) : Nat → Bool → Nat → GoStr → Option (Bool × GoStr)
  | 0, _, _, _ => none
  | fuel + 1, mtch, nrange, chunk =>
    if chunk.head? = some ']' ∧ 0 < nrange then some (mtch, chunk.tail)
    else
      match getEsc chunk with
      | none => none
      | some (lo, ch1) =>
        match (if ch1.head? = some '-' then getEsc ch1.tail else some (lo, ch1)) with
        | none => none
        | some (hi, ch2) =>
          parseRanges r fuel (mtch ∨ (lo.val ≤ r.val ∧ r.val ≤ hi.val)) (nrange + 1) ch2

/-- matchChunk of the standard library: match a chunk (no stars) against
    the head of s, carrying the failed flag so that pattern syntax keeps
    being checked after a mismatch. -/
def matchChunk : Nat → GoStr → GoStr → Bool → ChunkRes
  | 0, _, _, _ => ChunkRes.errBad
  | fuel + 1, chunk, s, failed0 =>
    match chunk with
    | [] => if failed0 then ChunkRes.fail else ChunkRes.ok s
    | c :: rest =>
      let failed := if ¬ failed0 ∧ s = [] then true else failed0
      if c = '[' then
        let r := if failed then Char.ofNat 0 else s.headD (Char.ofNat 0)
        let s' := if failed then s else s.tail
        let (neg, ch1) :=
          match rest with
          | '^' :: t => (true, t)
          | _ => (false, rest)
        match parseRanges r (ch1.length + 1) false 0 ch1 with
        | none => ChunkRes.errBad
        | some (m, ch2) =>
          let failed' := if m = neg then true else failed
          matchChunk fuel ch2 s' failed'
      else if c = '?' then
        let failed' := if ¬ failed ∧ s.headD (Char.ofNat 0) = '/' then true else failed
        let s' := if failed then s else s.tail
        matchChunk fuel rest s' failed'
      else if c = '\\' then
        match rest with
        | [] => ChunkRes.errBad
        | d :: rest' =>
          let failed' := if ¬ failed ∧ d ≠ s.headD (Char.ofNat 0) then true else failed
          let s' := if failed then s else s.tail
          matchChunk fuel rest' s' failed'
      else
        let failed' := if ¬ failed ∧ c ≠ s.headD (Char.ofNat 0) then true else failed
        let s' := if failed then s else s.tail
        matchChunk fuel rest s' failed'

/-- The scanning loop of scanChunk, returning the chunk up to the next
    top-level star together with the rest of the pattern. -/
def scanChunkCore : Bool → GoStr → GoStr × GoStr
  | _, [] => ([], [])
  | inr, c :: rest =>
    if c = '\\' then
      match rest with
      | [] => (['\\'], [])
      | d :: rest' =>
        let (ch, rs) := scanChunkCore inr rest'
        ('\\' :: d :: ch, rs)
    else if c = '[' then
      let (ch, rs) := scanChunkCore true rest
      ('[' :: ch, rs)
    else if c = ']' then
      let (ch, rs) := scanChunkCore false rest
      (']' :: ch, rs)
    else if c = '*' then
      if inr then
        let (ch, rs) := scanChunkCore inr rest
        ('*' :: ch, rs)
      else ([], c :: rest)
    else
      let (ch, rs) := scanChunkCore inr rest
      (c :: ch, rs)

/-- scanChunk of the standard library: strip leading stars and return the
    following chunk and the rest of the pattern. -/
def scanChunk (p : GoStr) : Bool × GoStr × GoStr :=
  let p' := p.dropWhile (fun c => c = '*')
  let star := p'.length ≠ p.length
  let (ch, rest) := scanChunkCore false p'
  (star, ch, rest)

/-- The star backtracking loop of filepath.Match: try to match the chunk
    after skipping one more non-slash character of the name.  The main
    loop is passed in as the continuation applied to the rest of the
    pattern. -/
def goStarLoop (auxF : GoStr → GoStr → Bool) (chunk rest : GoStr) : GoStr → Bool
  | [] => false
  | c :: tailN =>
    if c = '/' then false
    else
      match matchChunk (chunk.length + 1) chunk tailN false with
      | ChunkRes.errBad => false
      | ChunkRes.ok t =>
        if rest = [] ∧ t ≠ [] then goStarLoop auxF chunk rest tailN
        else auxF rest t
      | ChunkRes.fail => goStarLoop auxF chunk rest tailN

/-- The main loop of filepath.Match.  Error returns of the Go function
    become false because every caller in ignore.go discards the error.
    Each level consumes at least one pattern character, so fuel equal to
    the pattern length plus one is always sufficient. -/
def goMatchAux : Nat → GoStr → GoStr → Bool
  | 0, _, _ => false
  | fuel + 1, pattern, name =>
    match pattern with
    | [] => name = []
    | _ :: _ =>
      let (star, chunk, rest) := scanChunk pattern
      if star ∧ chunk = [] then name.all (fun c => c ≠ '/')
      else
        match matchChunk (chunk.length + 1) chunk name false with
        | ChunkRes.ok t =>
          if t = [] ∨ rest ≠ [] then goMatchAux fuel rest t
          else if star then goStarLoop (goMatchAux fuel) chunk rest name
          else false
        | ChunkRes.errBad => false
        | ChunkRes.fail =>
          if star then goStarLoop (goMatchAux fuel) chunk rest name
          else false

/-- filepath.Match with the error collapsed to false, as used by the
    ignore matcher. -/
def goMatch (pattern name : GoStr) : Bool :=
  goMatchAux (pattern.length + 1) pattern name

/-- Index of the first occurrence of sub in s. -/
def findSub (s sub : GoStr) : Option Nat :=
  (List.range (s.length + 1)).find? (fun i => sub.isPrefixOf (s.drop i))

/-- strings.Split for a nonempty separator, via fuel on the string length. -/
def splitOnSubFuel (sep : GoStr) : Nat → GoStr → List GoStr
  | 0, s => [s]
  | fuel + 1, s =>
    match findSub s sep with
    | none => [s]
    | some i => s.take i :: splitOnSubFuel sep fuel (s.drop (i + sep.length))

/-- strings.Split for a nonempty separator. -/
def splitOnSub (s sep : GoStr) : List GoStr :=
  splitOnSubFuel sep (s.length + 1) s

/-- The segment loop of matchDoublestar: try the suffix pattern against
    every tail of the remaining path, plus the bare last segment. -/
def dsLoop (suffix : GoStr) : List GoStr → Bool
  | [] => false
  | seg :: restSegs =>
    let subpath := List.intercalate ['/'] (seg :: restSegs)
    if goMatch suffix subpath then true
    else if restSegs = [] then goMatch suffix seg
    else dsLoop suffix restSegs

/-- matchDoublestar of ignore.go: a single double-star segment matches any
    number of path segments. -/
def matchDoublestar (pattern path : GoStr) : Bool :=
  if ¬ goContainsSub pattern ("**".toList) then false
  else
    let parts := splitOnSub pattern ("**".toList)
    if parts.length ≠ 2 then false
    else
      let pre := parts.headD []
      let suffix0 := (parts.drop 1).headD []
      let suffix := goTrimPre suffix0 ("/".toList)
      if pre ≠ [] ∧ ¬ pre.isPrefixOf path then false
      else if suffix = [] then true
      else
        let remaining := if pre ≠ [] then goTrimPre path pre else path
        dsLoop suffix (splitOnSub remaining ("/".toList))

/-- matchPattern of ignore.go: patterns containing a slash match the full
    relative path (with double-star expansion), others match the basename
    and fall back to the full path. -/
def matchPattern (pattern relPath name : GoStr) : Bool :=
  if goContainsSub pattern ("/".toList) then
    if goMatch pattern relPath then true else matchDoublestar pattern relPath
  else
    if goMatch pattern name then true else goMatch pattern relPath

/-- One parsed ignore rule: the pattern with its negation and
    directory-only flags. -/
structure IgnoreRule where
  pattern : GoStr
  negated : Bool
  dirOnly : Bool
deriving Repr, DecidableEq

/-- The parsed rule list of a .izeropignore file. -/
structure IgnoreRules where
  patterns : List IgnoreRule
deriving Repr, DecidableEq

/-- The loop body of IsIgnored: directory-only rules are skipped for
    non-directories, and a matching rule overwrites the accumulator with
    the complement of its negation flag. -/
def ignoreStep (isDir : Bool) (relPath name : GoStr) (ignored : Bool) (p : IgnoreRule) : Bool :=
  if p.dirOnly && !isDir then ignored
  else if matchPattern p.pattern relPath name then !p.negated
  else ignored

/-- IsIgnored of ignore.go.  ToSlash is the identity on the slash-separated
    paths of the model. -/
def IsIgnored (r : IgnoreRules) (relPath : GoStr) (isDir : Bool) : Bool :=
  if r.patterns = [] then false
  else
    let name := goBase relPath
    r.patterns.foldl (ignoreStep isDir relPath name) false

/-- A rule applies to a candidate when it is not a directory-only rule on a
    non-directory and its pattern matches. -/
def ruleApplies (isDir : Bool) (relPath name : GoStr) (p : IgnoreRule) : Bool :=
  (!(p.dirOnly && !isDir)) && matchPattern p.pattern relPath name

/-- The last-matching-rule reading of the spec: ignored exactly when the
    last applicable matching rule is non-negated. -/
def lastMatchIgnored (r : IgnoreRules) (relPath : GoStr) (isDir : Bool) : Bool :=
  match r.patterns.reverse.find? (ruleApplies isDir relPath (goBase relPath)) with
  | none => false
  | some p => !p.negated

/-!
Sync state (pkg/sync/state.go) and the pull-side engine
(pkg/sync/sync.go, the current snapshot with conflict handling).
-/

/-- FileRecord of state.go: last-known state of a synced file. -/
structure FileRecord where
  remoteID : GoStr
  size : Int
  hash : GoStr
  remoteTime : GoStr
  localMod : Int
deriving Repr, DecidableEq

/-- State of state.go: cursor, note mapping and per-file records. -/
structure SyncState where
  cursor : GoStr
  notes : List (GoStr × GoStr)
  files : List (GoStr × FileRecord)
deriving Repr, DecidableEq

/-- SyncResult of sync.go: the per-cycle counters and soft errors. -/
structure SyncResult where
  downloaded : Nat
  uploaded : Nat
  deleted : Nat
  skipped : Nat
  conflicts : Nat
  errors : List GoStr
deriving Repr, DecidableEq

/-- The all-zero SyncResult a cycle starts from. -/
def emptyResult : SyncResult := ⟨0, 0, 0, 0, 0, []⟩

/-- A local file visible to the pull engine: its bytes and its
    modification time in unix seconds. -/
structure LocalFile where
  bytes : Bytes
  mtime : Int
deriving Repr, DecidableEq

/-- The local tree as seen through os.Stat and friends: a map from path to
    file. -/
abbrev Fs := List (GoStr × LocalFile)

/-- Filesystem calls issued by the engine, recorded as a trace. -/
inductive FsOp where
  | mkdirAll (path : GoStr)
  | create (path : GoStr)
  | remove (path : GoStr)
  | rename (src dst : GoStr)
  | copy (src dst : GoStr)
  | writeFile (path : GoStr) (data : GoStr) (mode : Nat)
deriving Repr, DecidableEq

/-- api.Change as consumed by the engine (the current snapshot carries a
    content-hash field, as used throughout sync.go). -/
structure Change where
  ctype : GoStr
  action : GoStr
  id : GoStr
  path : GoStr
  size : Int
  contentHash : GoStr
  updatedAt : GoStr
deriving Repr, DecidableEq

/-- The environment of a pull: configuration plus the oracles standing for
    the network and the fallible filesystem calls. -/
structure PullEnv where
  syncDir : GoStr
  rootDir : GoStr
  ignore : IgnoreRules
  /-- time.Now().Unix() at the moment of the cycle. -/
  now : Int
  /-- modification time stamped on files the engine writes. -/
  writeMtime : Int
  /-- hex(sha256(bytes)), kept uninterpreted. -/
  hashHex : Bytes → GoStr
  /-- Client.DownloadFile by remote id; none is a failed download. -/
  download : GoStr → Option Bytes
  /-- os.Create success at a given path. -/
  createOk : GoStr → Bool
  /-- os.Rename success onto a given destination. -/
  renameOk : GoStr → Bool
  /-- copyFile success onto a given destination. -/
  copyOk : GoStr → Bool

/-- The state a pull threads through its changes: sync state, local tree,
    counters, and the trace of filesystem calls. -/
structure PullStep where
  st : SyncState
  fs : Fs
  res : SyncResult
  ops : List FsOp
deriving Repr, DecidableEq

/-- remoteToLocal of sync.go: strip the root prefix, or a bare leading
    slash for paths outside the root. -/
def remoteToLocal (root p : GoStr) : GoStr :=
  let pre := '/' :: root
  if (pre ++ ['/']).isPrefixOf p then p.drop (pre.length + 1)
  else if pre.isPrefixOf p ∧ p.length = pre.length then []
  else if p.headD (Char.ofNat 0) = '/' ∧ p ≠ [] then p.drop 1
  else p

/-- localToRemote of sync.go: prepend the slash-root prefix. -/
def localToRemote (root rel : GoStr) : GoStr :=
  '/' :: root ++ '/' :: rel

/-- Slash-join of the sync directory and a relative path, standing for
    filepath.Join at the filesystem boundary. -/
def joinPath (dir rel : GoStr) : GoStr := dir ++ '/' :: rel

/-- filepath.Dir restricted to the already-clean slash paths the engine
    builds: everything before the last slash, a dot when there is no
    slash, a slash when only slashes remain.  The dot-segment
    normalisation of Clean never fires on these inputs. -/
def goDir (p : GoStr) : GoStr :=
  if ¬ p.any (fun c => c = '/') then ['.']
  else
    let pre := (p.reverse.dropWhile (fun c => c ≠ '/')).reverse
    let pre2 := (pre.reverse.dropWhile (fun c => c = '/')).reverse
    if pre2 = [] then ['/'] else pre2

/-- The download-install block of handleFileChange: create the temp file,
    download into it, rename over the final path, then record the new
    file; any failure removes the temp, appends a soft error and leaves
    the state untouched. -/
def hfcInstall (env : PullEnv) (c : Change) (isNote : Bool) (localRel localPath : GoStr)
    (p : PullStep) : PullStep :=
  let tmpPath := tmpName localPath
  if ¬ env.createOk tmpPath then
    { p with res := { p.res with errors := p.res.errors ++ [("create ".toList) ++ localPath] },
             ops := p.ops ++ [FsOp.create tmpPath] }
  else
    let fs1 := insertA p.fs tmpPath ⟨[], env.writeMtime⟩
    match env.download c.id with
    | none =>
      { p with fs := eraseA fs1 tmpPath,
               res := { p.res with errors := p.res.errors ++ [("download ".toList) ++ c.path] },
               ops := p.ops ++ [FsOp.create tmpPath, FsOp.remove tmpPath] }
    | some bytes =>
      let fs2 := insertA fs1 tmpPath ⟨bytes, env.writeMtime⟩
      if ¬ env.renameOk localPath then
        { p with fs := eraseA fs2 tmpPath,
                 res := { p.res with errors := p.res.errors ++ [("rename ".toList) ++ localPath] },
                 ops := p.ops ++ [FsOp.create tmpPath, FsOp.rename tmpPath localPath,
                                  FsOp.remove tmpPath] }
      else
        let fs3 := insertA (eraseA fs2 tmpPath) localPath ⟨bytes, env.writeMtime⟩
        let st1 := if isNote then { p.st with notes := insertA p.st.notes localRel c.id } else p.st
        let newRec : FileRecord :=
          ⟨c.id, (bytes.length : Int), env.hashHex bytes, c.updatedAt, env.writeMtime⟩
        let st2 := { st1 with files := insertA st1.files localRel newRec }
        { st := st2, fs := fs3,
          res := { p.res with downloaded := p.res.downloaded + 1 },
          ops := p.ops ++ [FsOp.create tmpPath, FsOp.rename tmpPath localPath] }

/-- The conflict-detection block of handleFileChange: a tracked file whose
    mtime or size moved since the last sync, with a content hash that does
    not match the change, is copied aside to the conflict sidecar. -/
def hfcConflict (env : PullEnv) (c : Change) (localRel localPath : GoStr)
    (p : PullStep) : PullStep :=
  match lookupA p.fs localPath, lookupA p.st.files localRel with
  | some info, some rec =>
    if info.mtime ≠ rec.localMod ∨ (info.bytes.length : Int) ≠ rec.size then
      let localHash := env.hashHex info.bytes
      if c.contentHash ≠ [] ∧ localHash = c.contentHash then p
      else
        let conflictPath := conflictName localPath
        if env.copyOk conflictPath then
          { p with fs := insertA p.fs conflictPath ⟨info.bytes, env.writeMtime⟩,
                   res := { p.res with conflicts := p.res.conflicts + 1 },
                   ops := p.ops ++ [FsOp.copy localPath conflictPath] }
        else
          { p with res := { p.res with
                              errors := p.res.errors ++ [("conflict backup ".toList) ++ localRel],
                              conflicts := p.res.conflicts + 1 },
                   ops := p.ops ++ [FsOp.copy localPath conflictPath] }
    else p
  | _, _ => p

/-- The created-or-modified arm of handleFileChange, after the ignore
    check: the thirty-second guard, the content-hash short circuit, then
    conflict detection and the atomic install. -/
def hfcCreatedModified (env : PullEnv) (c : Change) (isNote : Bool) (localRel localPath : GoStr)
    (p : PullStep) : PullStep :=
  let p := { p with ops := p.ops ++ [FsOp.mkdirAll (goDir localPath)] }
  let recent : Bool :=
    match lookupA p.fs localPath with
    | some info => decide (env.now - info.mtime < 30)
    | none => false
  if recent then { p with res := { p.res with skipped := p.res.skipped + 1 } }
  else
    let hashSkip : Bool :=
      decide (c.contentHash ≠ []) &&
        match lookupA p.fs localPath with
        | some info => decide (env.hashHex info.bytes = c.contentHash)
        | none => false
    if hashSkip then
      match lookupA p.fs localPath with
      | some info =>
        let adopted : FileRecord :=
          ⟨c.id, (info.bytes.length : Int), env.hashHex info.bytes, c.updatedAt, info.mtime⟩
        { p with st := { p.st with files := insertA p.st.files localRel adopted },
                 res := { p.res with skipped := p.res.skipped + 1 } }
      | none => { p with res := { p.res with skipped := p.res.skipped + 1 } }
    else
      hfcInstall env c isNote localRel localPath (hfcConflict env c localRel localPath p)

/-- handleFileChange of sync.go. -/
def handleFileChange (env : PullEnv) (c : Change) (p : PullStep) : PullStep :=
  let localRel0 := remoteToLocal env.rootDir c.path
  if localRel0 = [] then p
  else
    let isNote := goExt localRel0 = []
    let localRel := if isNote then localRel0 ++ (".txt".toList) else localRel0
    if IsIgnored env.ignore localRel false then
      { p with res := { p.res with skipped := p.res.skipped + 1 } }
    else
      let localPath := joinPath env.syncDir localRel
      if c.action = ("created".toList) ∨ c.action = ("modified".toList) then
        hfcCreatedModified env c isNote localRel localPath p
      else if c.action = ("deleted".toList) then
        match lookupA p.fs localPath with
        | some _ =>
          { st := { p.st with notes := eraseA p.st.notes localRel },
            fs := eraseA p.fs localPath,
            res := { p.res with deleted := p.res.deleted + 1 },
            ops := p.ops ++ [FsOp.remove localPath] }
        | none => p
      else p

/-- Whether a directory is empty as seen through os.ReadDir on the flat
    file map: no tracked path lies strictly below it. -/
def dirEmpty (fs : Fs) (dirPath : GoStr) : Bool :=
  ¬ fs.any (fun kv => (dirPath ++ ['/']).isPrefixOf kv.1)

/-- handleDirectoryChange of sync.go: mkdir for creates, remove-if-empty
    for deletes. -/
def handleDirectoryChange (env : PullEnv) (c : Change) (p : PullStep) : PullStep :=
  let localRel := remoteToLocal env.rootDir c.path
  if localRel = [] then p
  else if IsIgnored env.ignore localRel true then p
  else
    let localPath := joinPath env.syncDir localRel
    if c.action = ("created".toList) ∨ c.action = ("modified".toList) then
      { p with ops := p.ops ++ [FsOp.mkdirAll localPath] }
    else if c.action = ("deleted".toList) then
      if dirEmpty p.fs localPath then
        { p with res := { p.res with deleted := p.res.deleted + 1 },
                 ops := p.ops ++ [FsOp.remove localPath] }
      else p
    else p

/-- The dispatch loop of PullSync over one page of changes. -/
def pullOnce (env : PullEnv) (changes : List Change) (p : PullStep) : PullStep :=
  changes.foldl
    (fun acc c =>
      if c.ctype = ("directory".toList) then handleDirectoryChange env c acc
      else if c.ctype = ("file".toList) then handleFileChange env c acc
      else acc)
    p

/-- One page of the changes feed. -/
structure ChangesResp where
  changes : List Change
  cursor : GoStr
  hasMore : Bool
deriving Repr, DecidableEq

/-- The cross-page combination of results in PullSync: downloaded, deleted,
    skipped and errors are accumulated; the conflict counter of deeper
    pages is dropped, exactly as in the source. -/
def combineResults (a b : SyncResult) : SyncResult :=
  { a with downloaded := a.downloaded + b.downloaded,
           deleted := a.deleted + b.deleted,
           skipped := a.skipped + b.skipped,
           errors := a.errors ++ b.errors }

/-- PullSync of sync.go, with recursion depth bounded by fuel (each level
    consumes one page of the changes feed; fuel exhaustion models an
    unbounded pagination chain and is never reached in the claims).  The
    final Bool is false when fetching a page failed, in which case the Go
    function returns the error together with the page cursor. -/
def pullSyncModel (env : PullEnv) (gc : GoStr → Option ChangesResp) :
    Nat → SyncState → Fs → GoStr → SyncState × Fs × SyncResult × GoStr × Bool
  | 0, st, fs, cur => (st, fs, emptyResult, cur, false)
  | fuel + 1, st, fs, cur =>
    match gc cur with
    | none => (st, fs, emptyResult, cur, false)
    | some resp =>
      let p := pullOnce env resp.changes ⟨st, fs, emptyResult, []⟩
      if resp.hasMore then
        let (st2, fs2, r2, cur2, ok) := pullSyncModel env gc fuel p.st p.fs resp.cursor
        if ok then (st2, fs2, combineResults p.res r2, cur2, true)
        else (st2, fs2, p.res, resp.cursor, false)
      else (p.st, p.fs, p.res, resp.cursor, true)

/-!
Push engine (PushSync of pkg/sync/sync.go, current snapshot).

The local tree is a static inductive tree walked in pre-order as
filepath.Walk does; the remote indexes built by initRootDir and the
ListFiles loop are parameters (the claims quantify over all their possible
contents, which subsumes every map iteration order); remote calls are
oracles and the calls actually issued are recorded in a trace.  A conflict
download writes a sidecar next to the walked tree; since the walked tree
is a snapshot, a run on a tree already containing such sidecars covers the
case where the walk observes them.
-/

/-- One entry of the local tree. -/
inductive FsEntry where
  | file (name : GoStr) (bytes : Bytes) (mtime : Int)
  | dir (name : GoStr) (children : List FsEntry)
deriving Repr

/-- The name of a tree entry, as info.Name() reports it. -/
def FsEntry.name : FsEntry → GoStr
  | .file n _ _ => n
  | .dir n _ => n

/-- A remote directory record, reduced to the id the engine uses. -/
structure RemoteDir where
  id : GoStr
deriving Repr, DecidableEq

/-- api.FileEntry as consumed by the push walk. -/
structure RemoteFileEntry where
  id : GoStr
  size : Int
  contentHash : GoStr
  hasText : Bool
  updatedAt : GoStr
deriving Repr, DecidableEq

/-- The remote calls a push issues, with the relative path of the local
    entry that triggered each call kept as bookkeeping. -/
inductive PushCall where
  | createDir (relPath name parentID : GoStr)
  | updateNote (relPath name noteID : GoStr)
  | updateText (relPath name fileID : GoStr)
  | createText (relPath name dirID : GoStr)
  | uploadBin (relPath name dirID : GoStr)
  | conflictDownload (relPath fileID : GoStr)
  | deleteFile (relPath fileID : GoStr)
deriving Repr, DecidableEq

/-- The environment of a push: configuration and remote-call oracles. -/
structure PushEnv where
  rootDir : GoStr
  ignore : IgnoreRules
  hashHex : Bytes → GoStr
  /-- Client.CreateDirectory, name and parent id to new record. -/
  mkDir : GoStr → GoStr → Option RemoteDir
  /-- Client.UpdateFile with a contents field. -/
  updateContents : GoStr → Bytes → Option Unit
  /-- Client.CreateTextFile, returning the created id. -/
  createText : GoStr → Bytes → GoStr → Option GoStr
  /-- Client.UploadFile, returning the created id. -/
  uploadBin : GoStr → GoStr → Option GoStr
  /-- Client.DownloadFile for conflict sidecars. -/
  download : GoStr → Option Bytes
  /-- os.Create success for the conflict sidecar file. -/
  createOk : GoStr → Bool

/-- The state a push walk threads along: sync state, remote indexes,
    counters, and the trace of issued calls. -/
structure PushSt where
  files : List (GoStr × FileRecord)
  notes : List (GoStr × GoStr)
  rdirs : List (GoStr × RemoteDir)
  rfiles : List (GoStr × RemoteFileEntry)
  res : SyncResult
  calls : List PushCall
deriving Repr, DecidableEq

/-- The known text extensions of isTextFile. -/
def textExts : List GoStr :=
  [".txt".toList, ".md".toList, ".json".toList, ".yml".toList,
   ".yaml".toList, ".xml".toList, ".html".toList, ".css".toList,
   ".js".toList, ".ts".toList, ".rb".toList, ".py".toList,
   ".go".toList, ".sh".toList, ".bash".toList, ".toml".toList,
   ".csv".toList, ".log".toList, ".env".toList, ".conf".toList,
   ".cfg".toList, ".ini".toList, ".sql".toList, ".svg".toList]

/-- isTextFile of sync.go: extension-less names and known text extensions
    are text; otherwise a readable file smaller than 100 KB with no NUL
    byte is text. -/
def isTextFilePush (name : GoStr) (bytes : Bytes) : Bool :=
  let ext := (goExt name).map Char.toLower
  if ext = [] then true
  else if textExts.contains ext then true
  else if (bytes.length : Int) < 102400 then bytes.all (fun b => b ≠ 0)
  else false

/-- The fresh-upload tail of the walk callback: locate the parent remote
    directory, then create a text file or upload a binary. -/
def pushFresh (env : PushEnv) (s : PushSt) (relPath name : GoStr) (bytes : Bytes)
    (mtime : Int) (remotePath : GoStr) : PushSt :=
  let dirRemotePath := goDir remotePath
  let dirID := match lookupA s.rdirs dirRemotePath with
               | some d => d.id
               | none => []
  if dirID = [] then
    { s with res := { s.res with errors := s.res.errors ++ [("no remote directory for ".toList) ++ remotePath] } }
  else if isTextFilePush name bytes then
    let s := { s with calls := s.calls ++ [PushCall.createText relPath name dirID] }
    match env.createText name bytes dirID with
    | none => { s with res := { s.res with errors := s.res.errors ++ [("create text ".toList) ++ relPath] } }
    | some rid =>
      let rec0 : FileRecord := ⟨rid, (bytes.length : Int), env.hashHex bytes, [], mtime⟩
      { s with files := insertA s.files relPath rec0,
               res := { s.res with uploaded := s.res.uploaded + 1 } }
  else
    let s := { s with calls := s.calls ++ [PushCall.uploadBin relPath name dirID] }
    match env.uploadBin dirID name with
    | none => { s with res := { s.res with errors := s.res.errors ++ [("upload ".toList) ++ relPath] } }
    | some rid =>
      let rec0 : FileRecord := ⟨rid, (bytes.length : Int), env.hashHex bytes, [], mtime⟩
      { s with files := insertA s.files relPath rec0,
               res := { s.res with uploaded := s.res.uploaded + 1 } }

/-- The both-sides-moved conflict check of the walk callback: when the
    tracked remote timestamp differs from the current one, the remote
    version is downloaded into the conflict sidecar and the conflict
    counter moves; the local version is still pushed afterwards. -/
def pushConflictCheck (env : PushEnv) (s : PushSt) (relPath : GoStr)
    (rf : RemoteFileEntry) : PushSt :=
  match lookupA s.files relPath with
  | some rec1 =>
    if rec1.remoteTime ≠ [] ∧ rec1.remoteTime ≠ rf.updatedAt then
      let s := { s with calls := s.calls ++ [PushCall.conflictDownload relPath rf.id] }
      let s :=
        if env.createOk (conflictName relPath) then
          match env.download rf.id with
          | none =>
            { s with res := { s.res with errors := s.res.errors ++ [("conflict download ".toList) ++ relPath] } }
          | some _ => s
        else s
      { s with res := { s.res with conflicts := s.res.conflicts + 1 } }
    else s
  | none => s

/-- The existing-remote-file branch of the walk callback: content-hash
    short circuit, two state-hash skip checks, the both-sides-moved
    conflict download, then an in-place text update; a binary falls
    through to the fresh-upload tail. -/
def pushExisting (env : PushEnv) (s : PushSt) (relPath name : GoStr) (bytes : Bytes)
    (mtime : Int) (remotePath : GoStr) (rf : RemoteFileEntry) : PushSt :=
  let localHash := env.hashHex bytes
  if rf.contentHash ≠ [] ∧ localHash = rf.contentHash then
    let rec0 : FileRecord := ⟨rf.id, (bytes.length : Int), localHash, rf.updatedAt, mtime⟩
    { s with files := insertA s.files relPath rec0,
             res := { s.res with skipped := s.res.skipped + 1 } }
  else
    let skipStateHash : Bool :=
      match lookupA s.files relPath with
      | some rec1 =>
        decide (rec1.hash ≠ []) && decide (rec1.hash = localHash) &&
          decide (rec1.remoteTime = rf.updatedAt)
      | none => false
    if skipStateHash then { s with res := { s.res with skipped := s.res.skipped + 1 } }
    else
      let skipSameContent : Bool :=
        decide (rf.size = (bytes.length : Int)) && decide (localHash ≠ []) &&
          match lookupA s.files relPath with
          | some rec1 => decide (rec1.hash = localHash)
          | none => false
      if skipSameContent then
        let rec0 : FileRecord := ⟨rf.id, (bytes.length : Int), localHash, rf.updatedAt, mtime⟩
        { s with files := insertA s.files relPath rec0,
                 res := { s.res with skipped := s.res.skipped + 1 } }
      else
        let s := pushConflictCheck env s relPath rf
        if rf.hasText then
          let s := { s with calls := s.calls ++ [PushCall.updateText relPath name rf.id] }
          match env.updateContents rf.id bytes with
          | none => { s with res := { s.res with errors := s.res.errors ++ [("update ".toList) ++ relPath] } }
          | some _ =>
            let rec0 : FileRecord := ⟨rf.id, (bytes.length : Int), env.hashHex bytes, rf.updatedAt, mtime⟩
            { s with files := insertA s.files relPath rec0,
                     res := { s.res with uploaded := s.res.uploaded + 1 } }
        else pushFresh env s relPath name bytes mtime remotePath

/-- The file case of the PushSync walk callback, after the hidden-name
    check: ignore rules, the tracked-note branch, the conflict-name skip,
    then the existing-remote or fresh-upload paths. -/
def pushFile (env : PushEnv) (s : PushSt) (relPath name : GoStr) (bytes : Bytes)
    (mtime : Int) : PushSt :=
  if IsIgnored env.ignore relPath false then
    { s with res := { s.res with skipped := s.res.skipped + 1 } }
  else
    let remotePath := localToRemote env.rootDir relPath
    match lookupA s.notes relPath with
    | some noteID =>
      let noteRemotePath :=
        if (".txt".toList).isSuffixOf remotePath then goTrimSuf remotePath (".txt".toList)
        else remotePath
      let skipNote : Bool :=
        match lookupA s.rfiles noteRemotePath with
        | some rf => decide (rf.size = (bytes.length : Int))
        | none => false
      if skipNote then { s with res := { s.res with skipped := s.res.skipped + 1 } }
      else
        let s := { s with calls := s.calls ++ [PushCall.updateNote relPath name noteID] }
        match env.updateContents noteID bytes with
        | none =>
          { s with res := { s.res with errors := s.res.errors ++ [("update note ".toList) ++ relPath] } }
        | some _ =>
          let rec0 : FileRecord := ⟨noteID, (bytes.length : Int), env.hashHex bytes, [], mtime⟩
          { s with files := insertA s.files relPath rec0,
                   res := { s.res with uploaded := s.res.uploaded + 1 } }
    | none =>
      if goContainsSub name (".conflict".toList) then
        { s with res := { s.res with skipped := s.res.skipped + 1 } }
      else
        match lookupA s.rfiles remotePath with
        | some rf => pushExisting env s relPath name bytes mtime remotePath rf
        | none => pushFresh env s relPath name bytes mtime remotePath

/-- The directory case of the walk callback (hidden and ignored
    directories are handled by the walk itself, which skips the subtree):
    create the directory remotely when it has no counterpart, with the
    parent id looked up from the index and the root as fallback. -/
def pushDir (env : PushEnv) (rootD : RemoteDir) (s : PushSt) (relPath name : GoStr) : PushSt :=
  let remotePath := localToRemote env.rootDir relPath
  match lookupA s.rdirs remotePath with
  | some _ => s
  | none =>
    let parentRemotePath := goDir remotePath
    let parentID := match lookupA s.rdirs parentRemotePath with
                    | some p => p.id
                    | none => rootD.id
    let s := { s with calls := s.calls ++ [PushCall.createDir relPath name parentID] }
    match env.mkDir name parentID with
    | none => { s with res := { s.res with errors := s.res.errors ++ [("mkdir ".toList) ++ remotePath] } }
    | some d => { s with rdirs := insertA s.rdirs remotePath d }

/-- Relative path of a child entry under a parent relative path, as
    filepath.Rel reports it during the walk. -/
def childRel (parentRel : GoStr) (n : GoStr) : GoStr :=
  if parentRel = [] then n else parentRel ++ '/' :: n

mutual

/-- The filepath.Walk traversal of PushSync: hidden names are skipped (for
    directories with their whole subtree), ignored directories are skipped
    with their whole subtree, and files go through the callback. -/
def pushWalk (env : PushEnv) (rootD : RemoteDir) (s : PushSt) (relPath : GoStr) :
    FsEntry → PushSt
  | .file n bytes mtime =>
    if ([ '.' ]).isPrefixOf n then s
    else pushFile env s relPath n bytes mtime
  | .dir n children =>
    if ([ '.' ]).isPrefixOf n then s
    else if IsIgnored env.ignore relPath true then s
    else pushWalkList env rootD (pushDir env rootD s relPath n) relPath children

/-- Pre-order traversal of a list of sibling entries. -/
def pushWalkList (env : PushEnv) (rootD : RemoteDir) (s : PushSt) (parentRel : GoStr) :
    List FsEntry → PushSt
  | [] => s
  | c :: cs =>
    pushWalkList env rootD (pushWalk env rootD s (childRel parentRel c.name) c) parentRel cs

end

/-- The walk from the sync root: the root itself is visited first (a
    hidden root name skips everything, the dot relative path is otherwise
    ignored), then its children in order. -/
def pushWalkRoot (env : PushEnv) (rootD : RemoteDir) (s : PushSt) (rootName : GoStr)
    (children : List FsEntry) : PushSt :=
  if ([ '.' ]).isPrefixOf rootName then s
  else pushWalkList env rootD s [] children

/-- One iteration of the deletion-propagation loop over tracked files: an
    entry whose local file is gone is dropped from state whether or not
    the remote delete succeeds; only a success increments the deleted
    counter. -/
def propFileStep (exFile : GoStr → Bool) (deleteOk : GoStr → Bool)
    (s : PushSt) (kv : GoStr × FileRecord) : PushSt :=
  if exFile kv.1 then s
  else if kv.2.remoteID = [] then { s with files := eraseA s.files kv.1 }
  else
    let s := { s with calls := s.calls ++ [PushCall.deleteFile kv.1 kv.2.remoteID] }
    let s :=
      if deleteOk kv.2.remoteID then
        { s with res := { s.res with deleted := s.res.deleted + 1 } }
      else
        { s with res := { s.res with errors := s.res.errors ++ [("delete ".toList) ++ kv.1] } }
    { s with files := eraseA s.files kv.1 }

/-- The deletion-propagation loop over tracked files. -/
def propFiles (exFile : GoStr → Bool) (deleteOk : GoStr → Bool)
    (entries : List (GoStr × FileRecord)) (s : PushSt) : PushSt :=
  entries.foldl (propFileStep exFile deleteOk) s

/-- One iteration of the deletion-propagation loop over tracked notes: as
    for files, and the path is also dropped from the file records. -/
def propNoteStep (exFile : GoStr → Bool) (deleteOk : GoStr → Bool)
    (s : PushSt) (kv : GoStr × GoStr) : PushSt :=
  if exFile kv.1 then s
  else
    let s := { s with calls := s.calls ++ [PushCall.deleteFile kv.1 kv.2] }
    let s :=
      if deleteOk kv.2 then
        { s with res := { s.res with deleted := s.res.deleted + 1 } }
      else
        { s with res := { s.res with errors := s.res.errors ++ [("delete note ".toList) ++ kv.1] } }
    { s with notes := eraseA s.notes kv.1, files := eraseA s.files kv.1 }

/-- The deletion-propagation loop over tracked notes. -/
def propNotes (exFile : GoStr → Bool) (deleteOk : GoStr → Bool)
    (entries : List (GoStr × GoStr)) (s : PushSt) : PushSt :=
  entries.foldl (propNoteStep exFile deleteOk) s

/-- The deletion-propagation phase of PushSync: the files loop over a
    snapshot of the tracked files, then the notes loop over a snapshot of
    the tracked notes. -/
def pushDeletionPhase (exFile : GoStr → Bool) (deleteOk : GoStr → Bool) (s : PushSt) : PushSt :=
  propNotes exFile deleteOk (propFiles exFile deleteOk s.files s).notes
    (propFiles exFile deleteOk s.files s)

/-- PushSync of sync.go: the walk over the local tree followed by deletion
    propagation.  The remote directory and file indexes are inputs, as is
    the existence oracle used by the stat calls of the deletion phase. -/
def pushSyncModel (env : PushEnv) (rootD : RemoteDir) (st0 : SyncState)
    (rdirs : List (GoStr × RemoteDir)) (rfiles : List (GoStr × RemoteFileEntry))
    (rootName : GoStr) (children : List FsEntry)
    (exFile : GoStr → Bool) (deleteOk : GoStr → Bool) : PushSt :=
  let s0 : PushSt := ⟨st0.files, st0.notes, rdirs, rfiles, emptyResult, []⟩
  pushDeletionPhase exFile deleteOk (pushWalkRoot env rootD s0 rootName children)

/-!
Sync state persistence (SaveState of the profile-based state module, with
the profile state path built as in config.ProfileStatePath).  SaveState is
modelled as the trace of filesystem operations it performs; the JSON
encoding is passed in already serialised since its exact bytes are not at
issue.
-/

/-- ProfileStatePath: configDir/profiles/name/sync-state.json. -/
def profileStatePath (configDir profile : GoStr) : GoStr :=
  configDir ++ ("/profiles/".toList) ++ profile ++ ("/sync-state.json".toList)

/-- SaveState: one direct WriteFile of the marshalled state to the state
    path with mode 0600 (384 decimal).  There is no temporary file and no
    rename in the source. -/
def saveStateOps (statePath : GoStr) (data : GoStr) : List FsOp :=
  [FsOp.writeFile statePath data 384]

/-- Written from the words of the spec, for comparison with saveStateOps:
    an atomic replace writes the bytes to a temporary path and then renames
    that path over the final one. -/
def atomicReplaceSave (ops : List FsOp) (finalPath : GoStr) : Prop :=
  ∃ tmp data mode, tmp ≠ finalPath ∧
    ops = [FsOp.writeFile tmp data mode, FsOp.rename tmp finalPath]

/-!
Watcher (the watcher package of the repository, Run and runSync).

The event loop is a single goroutine: runSync and runPull execute inside
one loop iteration, so the select statement is only reachable between
cycles.  The model is a small-step transition system: deliveries from the
fsnotify producer can interleave with anything, while loop transitions
follow the phase structure of Run.  The pulling flag, the settle timer and
the buffered push channel are modelled directly.
-/

/-- shouldIgnore of the watcher: hidden names, the legacy state file,
    conflict sidecars, editor droppings and the download temp suffix. -/
def shouldIgnoreW (path : GoStr) : Bool :=
  let name := goBase path
  if (['.']).isPrefixOf name then true
  else if name = (".izerop-sync.json".toList) then true
  else if goContainsSub name (".conflict".toList) then true
  else if (['~']).isSuffixOf name ∨ (".swp".toList).isSuffixOf name ∨
          (".izerop-tmp".toList).isSuffixOf name then true
  else false

/-- Where the watcher goroutine is: at the select, inside the pull or the
    push of the startup runSync, inside a ticker-driven runPull, or inside
    a runPush. -/
inductive WPhase where
  | atSelect
  | startupPull
  | startupPush
  | pollPull
  | pushing
deriving Repr, DecidableEq

/-- The watcher state: the loop phase, the pulling flag, the buffered
    fsnotify events not yet read by the select, the one-slot push channel
    and whether the settle timer is armed. -/
structure WState where
  phase : WPhase
  pulling : Bool
  events : List GoStr
  pushPending : Bool
  settleArmed : Bool
deriving Repr, DecidableEq

/-- The initial watcher state: Run begins with the startup runSync, whose
    first action sets the pulling flag. -/
def winit : WState :=
  ⟨WPhase.startupPull, true, [], false, false⟩

/-- The transitions of the watcher loop together with the concurrent
    fsnotify producer and the settle-timer goroutine. -/
inductive WStep : WState → WState → Prop where
  /-- The fsnotify producer delivers an event; possible in any phase. -/
  | deliver (s : WState) (name : GoStr) :
      WStep s { s with events := s.events ++ [name] }
  /-- The select reads an event and discards it: the pulling guard or the
      noise filter fired. -/
  | recvSkip (s : WState) (name : GoStr) (rest : List GoStr)
      (hp : s.phase = WPhase.atSelect) (hq : s.events = name :: rest)
      (hg : s.pulling = true ∨ shouldIgnoreW name = true) :
      WStep s { s with events := rest }
  /-- The select reads an event that survives both guards: the settle
      timer is reset and armed. -/
  | recvArm (s : WState) (name : GoStr) (rest : List GoStr)
      (hp : s.phase = WPhase.atSelect) (hq : s.events = name :: rest)
      (hg : s.pulling = false) (hi : shouldIgnoreW name = false) :
      WStep s { s with events := rest, settleArmed := true }
  /-- The settle timer fires on its own goroutine: a non-blocking send on
      the one-slot push channel. -/
  | timerFire (s : WState) (h : s.settleArmed = true) :
      WStep s { s with settleArmed := false, pushPending := true }
  /-- The select reads the push channel and runs runPush. -/
  | recvPush (s : WState) (hp : s.phase = WPhase.atSelect) (hq : s.pushPending = true) :
      WStep s { s with pushPending := false, phase := WPhase.pushing }
  /-- runPush returns to the select. -/
  | pushDone (s : WState) (hp : s.phase = WPhase.pushing) :
      WStep s { s with phase := WPhase.atSelect }
  /-- The poll ticker fires and runPull starts, setting the pulling flag. -/
  | pollTick (s : WState) (hp : s.phase = WPhase.atSelect) :
      WStep s { s with phase := WPhase.pollPull, pulling := true }
  /-- runPull finishes; its deferred handler clears the pulling flag. -/
  | pollPullDone (s : WState) (hp : s.phase = WPhase.pollPull) :
      WStep s { s with phase := WPhase.atSelect, pulling := false }
  /-- The pull half of the startup runSync finishes: the flag is cleared
      just before the push half starts. -/
  | startupPullDone (s : WState) (hp : s.phase = WPhase.startupPull) :
      WStep s { s with phase := WPhase.startupPush, pulling := false }
  /-- The push half of the startup runSync finishes and the loop begins. -/
  | startupPushDone (s : WState) (hp : s.phase = WPhase.startupPush) :
      WStep s { s with phase := WPhase.atSelect }

/-- Reachability of watcher states from the initial one. -/
def WReach (s : WState) : Prop := Relation.ReflTransGen WStep winit s

/-!
API client (DownloadFile of pkg/api/client.go).

The redirect-following loop of the HTTP client is modelled at the level of
requests: every redirected request starts with the headers of the original
request copied onto it (an upper bound for where the token can travel, as
the standard library only ever removes headers on cross-domain hops) and
then passes through the CheckRedirect hook of DownloadFile, which removes
the Authorization header whenever the target host differs from the host of
the first request in the chain.
-/

/-- An HTTP request reduced to what the redirect policy inspects. -/
structure HttpReq where
  host : GoStr
  headers : List (GoStr × GoStr)
deriving Repr, DecidableEq

/-- The Authorization header key. -/
def authKey : GoStr := "Authorization".toList

/-- The CheckRedirect hook installed by DownloadFile: abort after ten
    redirects, and strip Authorization when the target host differs from
    the host of the first request of the chain. -/
def checkRedirect (req : HttpReq) (via : List HttpReq) : Option HttpReq :=
  if 10 ≤ via.length then none
  else
    match via with
    | [] => some req
    | v0 :: _ =>
      if req.host ≠ v0.host then some { req with headers := eraseA req.headers authKey }
      else some req

/-- The redirect loop: each hop copies the original headers onto the
    candidate request, applies checkRedirect, and sends the result; a
    veto aborts the chain. -/
def followRedirects (origin : HttpReq) (via sent : List HttpReq) :
    List GoStr → List HttpReq
  | [] => sent
  | h :: hs =>
    let cand : HttpReq := ⟨h, origin.headers⟩
    match checkRedirect cand via with
    | none => sent
    | some r => followRedirects origin (via ++ [r]) (sent ++ [r]) hs

/-- All requests sent during one DownloadFile call whose redirect chain
    visits the given hosts: the initial authenticated request to the
    origin, then each surviving redirected request. -/
def downloadSentRequests (originHost token : GoStr) (redirectHosts : List GoStr) :
    List HttpReq :=
  let origin : HttpReq := ⟨originHost, [(authKey, ("Bearer ".toList) ++ token)]⟩
  followRedirects origin [origin] [origin] redirectHosts

/-!
Accessors over the push call trace, used to state which local entries a
push touched remotely, and concrete fixtures used by witnesses and
counterexamples.
-/

/-- The local entry name recorded on calls that create or change a remote
    record for a walked entry. -/
def PushCall.nameOf : PushCall → Option GoStr
  | .createDir _ n _ => some n
  | .updateNote _ n _ => some n
  | .updateText _ n _ => some n
  | .createText _ n _ => some n
  | .uploadBin _ n _ => some n
  | .conflictDownload _ _ => none
  | .deleteFile _ _ => none

/-- The relative path and name of calls that upload file content (note
    update, text update, text create, binary upload). -/
def PushCall.uploadRel : PushCall → Option (GoStr × GoStr)
  | .updateNote r n _ => some (r, n)
  | .updateText r n _ => some (r, n)
  | .createText r n _ => some (r, n)
  | .uploadBin r n _ => some (r, n)
  | _ => none

/-- A fixture hash oracle distinguishing the byte strings used in the
    concrete scenarios. -/
def fixHash : Bytes → GoStr :=
  fun b => if b = [97] then "H1".toList else if b = [98] then "H2".toList else "H3".toList

/-- A fixture pull environment: root directory named root, no ignore
    rules, reliable filesystem, one downloadable remote file. -/
def fixPullEnv : PullEnv :=
  { syncDir := "/s".toList, rootDir := "root".toList, ignore := ⟨[]⟩,
    now := 1000, writeMtime := 2000, hashHex := fixHash,
    download := fun i => if i = "f1".toList then some [98] else none,
    createOk := fun _ => true, renameOk := fun _ => true, copyOk := fun _ => true }

/-- A fixture change: a modification of the file a.txt under the root. -/
def fixChange : Change :=
  { ctype := "file".toList, action := "modified".toList, id := "f1".toList,
    path := "/root/a.txt".toList, size := 1, contentHash := "H1".toList,
    updatedAt := "T9".toList }

/-- A fixture pull state whose tracked record for a.txt agrees with the
    local file (mtime 500, one byte). -/
def fixStep : PullStep :=
  { st := ⟨[], [], [(("a.txt".toList), ⟨"f0".toList, 1, "H0".toList, "T1".toList, 500⟩)]⟩,
    fs := [(("/s/a.txt".toList), ⟨[97], 500⟩)], res := emptyResult, ops := [] }

/-- The fixture pull state with the tracked record diverging from the
    local file (recorded mtime 400 against 500 on disk). -/
def fixStepDiverged : PullStep :=
  { fixStep with st := ⟨[], [],
      [(("a.txt".toList), ⟨"f0".toList, 1, "H0".toList, "T1".toList, 400⟩)]⟩ }

/-- A fixture push environment: no ignore rules, every remote call
    succeeds. -/
def fixPushEnv : PushEnv :=
  { rootDir := "root".toList, ignore := ⟨[]⟩, hashHex := fixHash,
    mkDir := fun _ _ => some ⟨"d2".toList⟩,
    updateContents := fun _ _ => some (),
    createText := fun _ _ _ => some ("tf".toList),
    uploadBin := fun _ _ => some ("bf".toList),
    download := fun _ => some [9],
    createOk := fun _ => true }

/-- A fixture local tree holding a leftover download temp file, a
    note-tracked conflict sidecar, a directory with conflict in its name,
    hidden entries, and an ordinary conflict sidecar. -/
def fixTree : List FsEntry :=
  [FsEntry.file ("a.izerop-tmp".toList) [1] 10,
   FsEntry.file ("b.conflict.txt".toList) [2] 11,
   FsEntry.dir ("c.conflict".toList) [],
   FsEntry.file (".hidden".toList) [3] 12,
   FsEntry.dir (".git".toList) [FsEntry.file ("x".toList) [4] 13],
   FsEntry.file ("z.conflict.md".toList) [5] 14]

/-- The fixture push start state: the conflict-named text file is tracked
    as a note, the remote root directory exists. -/
def fixPushSt : PushSt :=
  ⟨[], [(("b.conflict.txt".toList), ("n1".toList))],
   [(("/root".toList), ⟨"d1".toList⟩)], [], emptyResult, []⟩

/-- A fixture state for the deletion-propagation phase: two tracked files,
    one of them missing locally, and one missing tracked note. -/
def fixDelSt : PushSt :=
  ⟨[(("gone.txt".toList), ⟨"r9".toList, 1, "h".toList, "t".toList, 5⟩),
    (("kept.txt".toList), ⟨"r8".toList, 1, "h".toList, "t".toList, 5⟩)],
   [(("gnote.txt".toList), ("r7".toList))], [], [], emptyResult, []⟩

/-- A fixture changes feed answering the cursor A with an empty page whose
    next cursor is B, and the cursor B with an empty page keeping B. -/
def fixFeed : GoStr → Option ChangesResp :=
  fun c =>
    if c = ("A".toList) then some ⟨[], "B".toList, false⟩
    else if c = ("B".toList) then some ⟨[], "B".toList, false⟩
    else none

/-- The watcher states of the echo trace: an event delivered during the
    startup pull survives to re-arm the settle timer after the cycle. -/
def wTrace1 : WState := ⟨WPhase.startupPull, true, ["a.txt".toList], false, false⟩

/-- Echo trace, after the pull half completes. -/
def wTrace2 : WState := ⟨WPhase.startupPush, false, ["a.txt".toList], false, false⟩

/-- Echo trace, after the push half completes; the loop reaches the
    select with the buffered event still queued. -/
def wTrace3 : WState := ⟨WPhase.atSelect, false, ["a.txt".toList], false, false⟩

/-- Echo trace, after the select consumes the event: the settle timer is
    armed by an event that was delivered during the pull. -/
def wTrace4 : WState := ⟨WPhase.atSelect, false, [], false, true⟩

/-- Echo trace, after the settle timer fires. -/
def wTrace5 : WState := ⟨WPhase.atSelect, false, [], true, false⟩

/-- Echo trace, after the select starts the resulting push. -/
def wTrace6 : WState := ⟨WPhase.pushing, false, [], false, false⟩

/-- What the walk guarantees about a call it emits for the entry with the
    given relative path and name: any recorded entry name is that name,
    and any content upload is for that path and name, with a conflict
    name allowed only when the path is a tracked note. -/
def walkCallOK (notes : List (GoStr × GoStr)) (rel n : GoStr) (c : PushCall) : Prop :=
  (∀ n', c.nameOf = some n' → n' = n) ∧
  (∀ r n', c.uploadRel = some (r, n') → r = rel ∧ n' = n ∧
    (goContainsSub n' (".conflict".toList) = true → lookupA notes r ≠ none))

/-!
Theorems.  First the generic lemmas about the association-list operations
and the derived path names, then one theorem per claim with its witness or
counterexample.
-/

theorem lookupA_insert_self {β : Type} (m : List (GoStr × β)) (k : GoStr) (v : β) :
    lookupA (insertA m k v) k = some v := by
  simp [insertA, lookupA]

theorem lookupA_insert_ne {β : Type} (m : List (GoStr × β)) (k k' : GoStr) (v : β)
    (h : k ≠ k') : lookupA (insertA m k v) k' = lookupA m k' := by
  simp only [insertA, lookupA, if_neg h]
  induction m with
  | nil => rfl
  | cons kv rest ih =>
    by_cases hk : kv.1 = k
    · simp [eraseA, lookupA, hk, List.filter, if_neg h] at *
      exact ih
    · cases kv with
      | mk k1 v1 =>
        simp only [eraseA, List.filter] at *
        simp only [decide_not] at *
        by_cases hk1 : k1 = k
        · simp_all
        · simp only [if_neg hk1, decide_eq_false hk1] at *
          simp only [Bool.not_false, lookupA] at *
          by_cases hk2 : k1 = k'
          · simp [hk2]
          · simp [if_neg hk2, ih]

theorem lookupA_erase_self {β : Type} (m : List (GoStr × β)) (k : GoStr) :
    lookupA (eraseA m k) k = none := by
  induction m with
  | nil => rfl
  | cons kv rest ih =>
    by_cases hk : kv.1 = k
    · simpa [eraseA, List.filter, hk] using ih
    · simp only [eraseA, List.filter, decide_not, decide_eq_false hk] at *
      simpa [lookupA, if_neg hk] using ih

theorem lookupA_erase_ne {β : Type} (m : List (GoStr × β)) (k k' : GoStr)
    (h : k ≠ k') : lookupA (eraseA m k) k' = lookupA m k' := by
  induction m with
  | nil => rfl
  | cons kv rest ih =>
    by_cases hk : kv.1 = k
    · have hne : kv.1 ≠ k' := by rw [hk]; exact h
      simp only [eraseA, List.filter, decide_not, decide_eq_true hk] at *
      simpa [lookupA, if_neg hne] using ih
    · simp only [eraseA, List.filter, decide_not, decide_eq_false hk] at *
      by_cases hk2 : kv.1 = k'
      · simp [lookupA, hk2]
      · simpa [lookupA, if_neg hk2] using ih

theorem goExtSplit_append (p : GoStr) : (goExtSplit p).1 ++ (goExtSplit p).2 = p := by
  unfold goExtSplit
  cases h : (p.reverse.takeWhile (fun c => c ≠ '/')).findIdx? (fun c => c = '.') with
  | none => simp
  | some i => simp [List.splitAt_eq]

theorem goExt_eq_drop (p : GoStr) :
    goExt p = p.drop ((goExtSplit p).1.length) := by
  unfold goExt goExtSplit
  cases h : (p.reverse.takeWhile (fun c => c ≠ '/')).findIdx? (fun c => c = '.') with
  | none => simp
  | some i =>
    simp only [List.splitAt_eq, List.length_take]
    congr 1
    omega

theorem goExt_suffix (p : GoStr) : goExt p <:+ p := by
  rw [goExt_eq_drop]
  exact List.drop_suffix _ _

theorem goExtSplit_fst_take (p : GoStr) :
    (goExtSplit p).1 = p.take ((goExtSplit p).1.length) := by
  unfold goExtSplit
  cases h : (p.reverse.takeWhile (fun c => c ≠ '/')).findIdx? (fun c => c = '.') with
  | none => simp
  | some i =>
    simp only [List.splitAt_eq, List.length_take]
    congr 1
    omega

theorem goTrimSuf_ext (p : GoStr) : goTrimSuf p (goExt p) = (goExtSplit p).1 := by
  have hsuf : (goExt p).isSuffixOf p = true :=
    List.isSuffixOf_iff_suffix.mpr (goExt_suffix p)
  have hfstle : (goExtSplit p).1.length ≤ p.length := by
    have := goExtSplit_fst_take p
    have h2 := congrArg List.length this
    simp only [List.length_take] at h2
    omega
  have hext : (goExt p).length = p.length - (goExtSplit p).1.length := by
    rw [goExt_eq_drop]
    simp
  unfold goTrimSuf
  rw [if_pos hsuf]
  have harith : p.length - (goExt p).length = (goExtSplit p).1.length := by omega
  rw [harith]
  exact (goExtSplit_fst_take p).symm

theorem conflictName_length (p : GoStr) : (conflictName p).length = p.length + 9 := by
  unfold conflictName
  by_cases h : goExt p = []
  · simp [h]
  · rw [if_neg h, goTrimSuf_ext]
    have hlen : (goExtSplit p).1.length + (goExtSplit p).2.length = p.length := by
      conv_rhs => rw [← goExtSplit_append p]
      simp
    have h9 : (".conflict".toList).length = 9 := by rfl
    simp only [List.length_append, h9]
    unfold goExt at *
    omega

theorem tmpName_length (p : GoStr) : (tmpName p).length = p.length + 11 := by
  unfold tmpName
  have : (".izerop-tmp".toList).length = 11 := by rfl
  simp [this]

theorem conflictName_ne_self (p : GoStr) : conflictName p ≠ p := by
  intro h
  have := conflictName_length p
  rw [h] at this
  omega

theorem tmpName_ne_self (p : GoStr) : tmpName p ≠ p := by
  intro h
  have := tmpName_length p
  rw [h] at this
  omega

theorem conflictName_ne_tmpName (p : GoStr) : conflictName p ≠ tmpName p := by
  intro h
  have h1 := conflictName_length p
  have h2 := tmpName_length p
  rw [h] at h1
  omega

theorem ignoreStep_applies (d : Bool) (rel n : GoStr) (p : IgnoreRule) (acc : Bool)
    (h : ruleApplies d rel n p = true) :
    ignoreStep d rel n acc p = !p.negated := by
  unfold ruleApplies at h
  unfold ignoreStep
  cases hd : (p.dirOnly && !d) <;> cases hm : matchPattern p.pattern rel n <;> simp_all

theorem ignoreStep_not_applies (d : Bool) (rel n : GoStr) (p : IgnoreRule) (acc : Bool)
    (h : ruleApplies d rel n p = false) :
    ignoreStep d rel n acc p = acc := by
  unfold ruleApplies at h
  unfold ignoreStep
  cases hd : (p.dirOnly && !d) <;> cases hm : matchPattern p.pattern rel n <;> simp_all

theorem ignore_foldl_last (d : Bool) (rel n : GoStr) (l : List IgnoreRule) :
    ∀ acc : Bool,
      l.foldl (ignoreStep d rel n) acc =
        match l.reverse.find? (ruleApplies d rel n) with
        | none => acc
        | some p => !p.negated := by
  induction l using List.reverseRecOn with
  | nil => intro acc; rfl
  | append_singleton t p ih =>
    intro acc
    rw [List.foldl_append, List.foldl_cons, List.foldl_nil, List.reverse_append]
    simp only [List.reverse_cons, List.reverse_nil, List.nil_append, List.singleton_append]
    cases happ : ruleApplies d rel n p with
    | false =>
      rw [ignoreStep_not_applies d rel n p _ happ, ih acc,
          List.find?_cons_of_neg _ (by simp [happ])]
    | true =>
      rw [ignoreStep_applies d rel n p _ happ,
          List.find?_cons_of_pos _ happ]

theorem isIgnored_eq_lastMatch (r : IgnoreRules) (relPath : GoStr) (isDir : Bool) :
    IsIgnored r relPath isDir = lastMatchIgnored r relPath isDir := by
  unfold IsIgnored lastMatchIgnored
  by_cases h : r.patterns = []
  · simp [h]
  · rw [if_neg h, ignore_foldl_last]

theorem find?_filter_of_imp {α : Type} (P q : α → Bool) (m : List α)
    (himp : ∀ a, P a = true → q a = true) :
    (m.filter q).find? P = m.find? P := by
  induction m with
  | nil => rfl
  | cons a t ih =>
    cases hq : q a with
    | true =>
      rw [List.filter_cons_of_pos hq]
      cases hP : P a with
      | true => rw [List.find?_cons_of_pos _ hP, List.find?_cons_of_pos _ hP]
      | false =>
        rw [List.find?_cons_of_neg _ (by simp [hP]), List.find?_cons_of_neg _ (by simp [hP]), ih]
    | false =>
      have hP : P a = false := by
        cases hPa : P a with
        | true => rw [himp a hPa] at hq; cases hq
        | false => rfl
      rw [List.filter_cons_of_neg (by simp [hq]), List.find?_cons_of_neg _ (by simp [hP]), ih]

/-- Claim C9: IsIgnored returns true exactly when the last rule in file
    order that applies to the candidate (directory-only rules applying
    only to directories) is non-negated, with no matching rule leaving the
    path not ignored; and for a non-directory candidate the directory-only
    rules are irrelevant: dropping them does not change the verdict. -/
theorem c9_ignore_last_match (r : IgnoreRules) (relPath : GoStr) (isDir : Bool) :
    (IsIgnored r relPath isDir = lastMatchIgnored r relPath isDir) ∧
    (IsIgnored r relPath false =
      IsIgnored ⟨r.patterns.filter (fun p => !p.dirOnly)⟩ relPath false) := by
  refine ⟨isIgnored_eq_lastMatch r relPath isDir, ?_⟩
  rw [isIgnored_eq_lastMatch, isIgnored_eq_lastMatch]
  unfold lastMatchIgnored
  have hrev : (r.patterns.filter (fun p => !p.dirOnly)).reverse =
      r.patterns.reverse.filter (fun p => !p.dirOnly) := by
    rw [List.filter_reverse]
  rw [hrev, find?_filter_of_imp]
  intro a ha
  unfold ruleApplies at ha
  cases hd : a.dirOnly <;> simp_all

/-- Claim C4, counterexample: at a concrete profile and payload, the
    operation trace of SaveState is not of the write-temporary-then-rename
    shape the claim asserts; the save is a single direct write to the
    final path. -/
theorem c4_counterexample :
    ¬ atomicReplaceSave
        (saveStateOps (profileStatePath ("/home/u/.config/izerop".toList) ("default".toList))
          ("json".toList))
        (profileStatePath ("/home/u/.config/izerop".toList) ("default".toList)) := by
  rintro ⟨tmp, data, mode, hne, heq⟩
  simp [saveStateOps] at heq

/-- Claim C4 as amended: SaveState writes the marshalled state in one
    direct WriteFile call to the profile state path with mode 0600; no
    temporary file and no rename are involved, so the replacement is not
    atomic. -/
theorem c4_save_direct_write (configDir profile : GoStr) (data : GoStr) :
    saveStateOps (profileStatePath configDir profile) data =
      [FsOp.writeFile (profileStatePath configDir profile) data 0o600] := by
  rfl

theorem followRedirects_auth (origin : HttpReq) (hosts : List GoStr) :
    ∀ (viaTail sent : List HttpReq),
      (∀ r ∈ sent, r.host ≠ origin.host → lookupA r.headers authKey = none) →
      ∀ r ∈ followRedirects origin (origin :: viaTail) sent hosts,
        r.host ≠ origin.host → lookupA r.headers authKey = none := by
  induction hosts with
  | nil =>
    intro viaTail sent hsent r hr
    exact hsent r hr
  | cons h hs ih =>
    intro viaTail sent hsent r hr
    rw [followRedirects] at hr
    by_cases hlen : 10 ≤ (origin :: viaTail).length
    · simp only [checkRedirect, if_pos hlen] at hr
      exact hsent r hr
    · simp only [checkRedirect, if_neg hlen] at hr
      by_cases hh : (⟨h, origin.headers⟩ : HttpReq).host ≠ origin.host
      · rw [if_pos hh] at hr
        have hr' : r ∈ followRedirects origin
            (origin :: (viaTail ++ [⟨h, eraseA origin.headers authKey⟩]))
            (sent ++ [⟨h, eraseA origin.headers authKey⟩]) hs := by
          simpa using hr
        refine ih _ _ ?_ r hr'
        intro q hq hqh
        rcases List.mem_append.mp hq with hq1 | hq2
        · exact hsent q hq1 hqh
        · have : q = ⟨h, eraseA origin.headers authKey⟩ := by simpa using hq2
          rw [this]
          exact lookupA_erase_self origin.headers authKey
      · rw [if_neg hh] at hr
        push_neg at hh
        have hr' : r ∈ followRedirects origin
            (origin :: (viaTail ++ [⟨h, origin.headers⟩]))
            (sent ++ [⟨h, origin.headers⟩]) hs := by
          simpa using hr
        refine ih _ _ ?_ r hr'
        intro q hq hqh
        rcases List.mem_append.mp hq with hq1 | hq2
        · exact hsent q hq1 hqh
        · have hqe : q = ⟨h, origin.headers⟩ := by simpa using hq2
          rw [hqe] at hqh
          simp only at hqh
          exact absurd hh hqh

/-- Claim C8: during a download, every request actually sent to a host
    other than the origin host carries no Authorization header; the
    CheckRedirect hook strips the bearer token on every cross-host
    redirect before the redirected request goes out. -/
theorem c8_redirect_strips_auth (originHost token : GoStr) (redirectHosts : List GoStr)
    (r : HttpReq) (hr : r ∈ downloadSentRequests originHost token redirectHosts)
    (hhost : r.host ≠ originHost) :
    lookupA r.headers authKey = none := by
  unfold downloadSentRequests at hr
  refine followRedirects_auth ⟨originHost, [(authKey, ("Bearer ".toList) ++ token)]⟩
      redirectHosts [] _ ?_ r hr hhost
  intro q hq hqh
  have : q = ⟨originHost, [(authKey, ("Bearer ".toList) ++ token)]⟩ := by simpa using hq
  rw [this] at hqh
  simp only at hqh
  exact absurd rfl hqh

/-- Witness for C8 at a concrete redirect chain: the redirected request to
    the storage host is sent without the Authorization header. -/
theorem c8_redirect_witness :
    (⟨"cdn.example.net".toList, []⟩ : HttpReq) ∈
        downloadSentRequests ("api.example.com".toList) ("tok".toList)
          [("cdn.example.net".toList)] ∧
      ("cdn.example.net".toList : GoStr) ≠ ("api.example.com".toList : GoStr) ∧
      lookupA ([] : List (GoStr × GoStr)) authKey = none :=
  ⟨by decide, by decide,
    c8_redirect_strips_auth ("api.example.com".toList) ("tok".toList)
      [("cdn.example.net".toList)] ⟨"cdn.example.net".toList, []⟩ (by decide) (by decide)⟩

/-- Claim C7, counterexample: on an empty page with has_more false the
    pull returns the cursor carried by the response, which at this
    concrete feed differs from the request cursor, so the cursor is not
    left unchanged. -/
theorem c7_counterexample :
    fixFeed ("A".toList) = some ⟨[], "B".toList, false⟩ ∧
    (pullSyncModel fixPullEnv fixFeed 1 ⟨[], [], []⟩ [] ("A".toList)).2.2.2.1 ≠
      ("A".toList : GoStr) := by
  constructor
  · decide
  · decide

/-- Claim C7 as amended: a pull whose changes response is an empty page
    with has_more false performs no filesystem operation, leaves the sync
    state (files included) untouched, and returns the cursor of the
    response (hence unchanged exactly when the server echoes the request
    cursor); a second pull against another empty page again leaves the
    local tree and the state identical. -/
theorem c7_empty_page (env : PullEnv) (gc : GoStr → Option ChangesResp) (n m : Nat)
    (st : SyncState) (fs : Fs) (cur : GoStr) (resp resp2 : ChangesResp)
    (h1 : gc cur = some resp) (he1 : resp.changes = []) (hm1 : resp.hasMore = false)
    (h2 : gc resp.cursor = some resp2) (he2 : resp2.changes = [])
    (hm2 : resp2.hasMore = false) :
    pullSyncModel env gc (n + 1) st fs cur = (st, fs, emptyResult, resp.cursor, true) ∧
    pullSyncModel env gc (m + 1) st fs resp.cursor =
      (st, fs, emptyResult, resp2.cursor, true) := by
  constructor
  · simp [pullSyncModel, h1, he1, hm1, pullOnce]
  · simp [pullSyncModel, h2, he2, hm2, pullOnce]

/-- Witness for C7 at the fixture feed: both pulls leave state and tree
    unchanged and return the cursor of their page. -/
theorem c7_empty_page_witness :
    fixFeed ("A".toList) = some ⟨[], "B".toList, false⟩ ∧
    pullSyncModel fixPullEnv fixFeed 1 ⟨"A".toList, [], []⟩ [] ("A".toList) =
      (⟨"A".toList, [], []⟩, [], emptyResult, "B".toList, true) :=
  ⟨by decide,
    (c7_empty_page fixPullEnv fixFeed 0 0 ⟨"A".toList, [], []⟩ [] ("A".toList)
      ⟨[], "B".toList, false⟩ ⟨[], "B".toList, false⟩
      (by decide) (by decide) (by decide) (by decide) (by decide) (by decide)).1⟩

/-- Claim C1 as amended: for a file create or modify change carrying a
    content hash, when the mapped relative path is nonempty and not
    ignored, the local file exists, it was not modified within the last
    thirty seconds, and its hash equals the content hash of the change,
    the engine downloads nothing and writes nothing (only the idempotent
    parent mkdir is issued), adopts the remote id and timestamp of the
    change into the file record together with the local size, hash and
    mtime, and increments the skipped counter. -/
theorem c1_hash_short_circuit (env : PullEnv) (c : Change) (p : PullStep) (info : LocalFile)
    (localRel0 localRel localPath : GoStr)
    (h0 : remoteToLocal env.rootDir c.path = localRel0)
    (hne : localRel0 ≠ [])
    (hrel : localRel = (if goExt localRel0 = [] then localRel0 ++ (".txt".toList) else localRel0))
    (hig : IsIgnored env.ignore localRel false = false)
    (hact : c.action = ("created".toList) ∨ c.action = ("modified".toList))
    (hpath : localPath = joinPath env.syncDir localRel)
    (hstat : lookupA p.fs localPath = some info)
    (hold : ¬ (env.now - info.mtime < 30))
    (hch : c.contentHash ≠ [])
    (hhash : env.hashHex info.bytes = c.contentHash) :
    handleFileChange env c p =
      { p with
          st := { p.st with files := (insertA p.st.files localRel
                    ⟨c.id, (info.bytes.length : Int), env.hashHex info.bytes,
                     c.updatedAt, info.mtime⟩) },
          res := { p.res with skipped := p.res.skipped + 1 },
          ops := p.ops ++ [FsOp.mkdirAll (goDir localPath)] } := by
  subst hpath
  subst hrel
  subst h0
  unfold handleFileChange
  rw [if_neg hne]
  simp only [hig, Bool.false_eq_true, if_false, if_pos hact]
  unfold hfcCreatedModified
  simp only [hstat, decide_eq_false hold, Bool.false_eq_true, if_false,
    decide_eq_true_eq, hhash, decide_eq_true hch, Bool.true_and,
    decide_eq_true (Eq.refl c.contentHash), Bool.and_self, if_true]

/-- Claim C1, counterexample: with the claim premises satisfied (create or
    modify change with a content hash, the local file exists and hashes
    match), a file modified ten seconds ago is skipped without the record
    adopting the remote id, and an ignored path likewise; so the claimed
    state update does not hold as stated. -/
theorem c1_counterexample :
    fixChange.contentHash ≠ [] ∧
    lookupA fixStep.fs ("/s/a.txt".toList) = some ⟨[97], 500⟩ ∧
    fixHash [97] = fixChange.contentHash ∧
    (handleFileChange { fixPullEnv with now := 510 } fixChange fixStep).st.files =
      fixStep.st.files ∧
    (handleFileChange { fixPullEnv with now := 510 } fixChange fixStep).res.skipped = 1 ∧
    (lookupA fixStep.st.files ("a.txt".toList) ≠
      some ⟨fixChange.id, 1, "H1".toList, fixChange.updatedAt, 500⟩) ∧
    (handleFileChange
        { fixPullEnv with ignore := ⟨[⟨"*.txt".toList, false, false⟩]⟩ }
        fixChange fixStep).st.files = fixStep.st.files := by
  decide

/-- Witness for C1 at the fixture inputs: the short circuit adopts the
    record and skips. -/
theorem c1_hash_short_circuit_witness :
    (¬ ((1000 : Int) - 500 < 30)) ∧
    handleFileChange fixPullEnv fixChange fixStep =
      { fixStep with
          st := { fixStep.st with files := (insertA fixStep.st.files ("a.txt".toList)
                    ⟨fixChange.id, 1, fixHash [97], fixChange.updatedAt, 500⟩) },
          res := { fixStep.res with skipped := fixStep.res.skipped + 1 },
          ops := fixStep.ops ++ [FsOp.mkdirAll (goDir ("/s/a.txt".toList))] } :=
  ⟨by decide,
    c1_hash_short_circuit fixPullEnv fixChange fixStep ⟨[97], 500⟩
      ("a.txt".toList) ("a.txt".toList) ("/s/a.txt".toList)
      (by decide) (by decide) (by decide) (by decide) (Or.inr (by decide)) (by decide)
      (by decide) (by decide) (by decide) (by decide)⟩

/-- Claim C2 as amended: during pull of a create or modify change on a
    nonempty, non-ignored path whose local file exists and was not
    modified within the last thirty seconds, if a file record exists, the
    local mtime or size differs from the record, and the local hash does
    not match the content hash of the change, then the engine copies the
    pre-pull local bytes to the conflict sidecar (the copy succeeding),
    counts one conflict, and after a successful download and rename the
    final path holds the server bytes. -/
theorem c2_conflict_sidecar (env : PullEnv) (c : Change) (p : PullStep) (info : LocalFile)
    (rec : FileRecord) (bytes : Bytes) (localRel0 localRel localPath : GoStr)
    (h0 : remoteToLocal env.rootDir c.path = localRel0)
    (hne : localRel0 ≠ [])
    (hrel : localRel = (if goExt localRel0 = [] then localRel0 ++ (".txt".toList) else localRel0))
    (hig : IsIgnored env.ignore localRel false = false)
    (hact : c.action = ("created".toList) ∨ c.action = ("modified".toList))
    (hpath : localPath = joinPath env.syncDir localRel)
    (hstat : lookupA p.fs localPath = some info)
    (hold : ¬ (env.now - info.mtime < 30))
    (htr : lookupA p.st.files localRel = some rec)
    (hdiff : info.mtime ≠ rec.localMod ∨ (info.bytes.length : Int) ≠ rec.size)
    (hmm : env.hashHex info.bytes ≠ c.contentHash)
    (hcopy : env.copyOk (conflictName localPath) = true)
    (hcreate : env.createOk (tmpName localPath) = true)
    (hdl : env.download c.id = some bytes)
    (hren : env.renameOk localPath = true) :
    (handleFileChange env c p).res.conflicts = p.res.conflicts + 1 ∧
    (handleFileChange env c p).res.downloaded = p.res.downloaded + 1 ∧
    lookupA (handleFileChange env c p).fs (conflictName localPath) =
      some ⟨info.bytes, env.writeMtime⟩ ∧
    lookupA (handleFileChange env c p).fs localPath = some ⟨bytes, env.writeMtime⟩ := by
  subst hpath
  subst hrel
  subst h0
  have htxt : (".txt".toList : GoStr) = ['.', 't', 'x', 't'] := rfl
  simp only [htxt] at hig htr hstat hcopy hcreate hren ⊢
  unfold handleFileChange
  rw [if_neg hne]
  simp only [htxt, hig, Bool.false_eq_true, if_false, if_pos hact]
  unfold hfcCreatedModified
  simp only [hstat, decide_eq_false hold, Bool.false_eq_true, if_false,
    decide_eq_false hmm, Bool.and_false, if_false]
  unfold hfcConflict
  simp only [hstat, htr]
  rw [if_pos hdiff]
  rw [if_neg (show ¬ (c.contentHash ≠ [] ∧ env.hashHex info.bytes = c.contentHash) from
    fun h => hmm h.2)]
  rw [if_pos hcopy]
  unfold hfcInstall
  rw [if_neg (by simp [hcreate])]
  simp only [hdl]
  rw [if_neg (by simp [hren])]
  refine ⟨rfl, rfl, ?_, ?_⟩
  · rw [lookupA_insert_ne _ _ _ _
      (fun h => conflictName_ne_self _ h.symm),
      lookupA_erase_ne _ _ _
      (fun h => conflictName_ne_tmpName _ h.symm),
      lookupA_insert_ne _ _ _ _
      (fun h => conflictName_ne_tmpName _ h.symm),
      lookupA_insert_ne _ _ _ _
      (fun h => conflictName_ne_tmpName _ h.symm)]
    exact lookupA_insert_self _ _ _
  · exact lookupA_insert_self _ _ _

/-- Claim C2, counterexample: with every premise of the claim satisfied
    (tracked record, mtime differing from the record, hash differing from
    the content hash of the change), a file modified ten seconds ago is
    skipped with no sidecar and no conflict count; with a failing
    download the final path keeps the old local bytes instead of the
    server bytes; and with a failing sidecar copy the conflict is counted
    but no sidecar exists. -/
theorem c2_counterexample :
    lookupA fixStepDiverged.st.files ("a.txt".toList) =
      some ⟨"f0".toList, 1, "H0".toList, "T1".toList, 400⟩ ∧
    lookupA fixStepDiverged.fs ("/s/a.txt".toList) = some ⟨[97], 500⟩ ∧
    fixHash [97] ≠ ("H3".toList : GoStr) ∧
    (handleFileChange { fixPullEnv with now := 510 }
        { fixChange with contentHash := "H3".toList } fixStepDiverged).res.conflicts = 0 ∧
    lookupA (handleFileChange { fixPullEnv with now := 510 }
        { fixChange with contentHash := "H3".toList } fixStepDiverged).fs
      ("/s/a.conflict.txt".toList) = none ∧
    (handleFileChange fixPullEnv
        { fixChange with contentHash := "H3".toList, id := "zz".toList }
        fixStepDiverged).res.conflicts = 1 ∧
    lookupA (handleFileChange fixPullEnv
        { fixChange with contentHash := "H3".toList, id := "zz".toList }
        fixStepDiverged).fs ("/s/a.txt".toList) = some ⟨[97], 500⟩ ∧
    (handleFileChange { fixPullEnv with copyOk := fun _ => false }
        { fixChange with contentHash := "H3".toList } fixStepDiverged).res.conflicts = 1 ∧
    lookupA (handleFileChange { fixPullEnv with copyOk := fun _ => false }
        { fixChange with contentHash := "H3".toList } fixStepDiverged).fs
      ("/s/a.conflict.txt".toList) = none := by
  decide

/-- Witness for C2 at the fixture inputs: sidecar with the old bytes,
    server bytes installed, one conflict, one download. -/
theorem c2_conflict_sidecar_witness :
    ((500 : Int) ≠ 400 ∨ ((1 : Int) ≠ 1)) ∧
    (handleFileChange fixPullEnv { fixChange with contentHash := "H3".toList }
        fixStepDiverged).res.conflicts = fixStepDiverged.res.conflicts + 1 ∧
    (handleFileChange fixPullEnv { fixChange with contentHash := "H3".toList }
        fixStepDiverged).res.downloaded = fixStepDiverged.res.downloaded + 1 ∧
    lookupA (handleFileChange fixPullEnv { fixChange with contentHash := "H3".toList }
        fixStepDiverged).fs (conflictName ("/s/a.txt".toList)) = some ⟨[97], 2000⟩ ∧
    lookupA (handleFileChange fixPullEnv { fixChange with contentHash := "H3".toList }
        fixStepDiverged).fs ("/s/a.txt".toList) = some ⟨[98], 2000⟩ :=
  ⟨Or.inl (by decide),
    c2_conflict_sidecar fixPullEnv { fixChange with contentHash := "H3".toList }
      fixStepDiverged ⟨[97], 500⟩ ⟨"f0".toList, 1, "H0".toList, "T1".toList, 400⟩ [98]
      ("a.txt".toList) ("a.txt".toList) ("/s/a.txt".toList)
      (by decide) (by decide) (by decide) (by decide) (Or.inr (by decide)) (by decide)
      (by decide) (by decide) (by decide) (Or.inl (by decide)) (by decide) (by decide)
      (by decide) (by decide) (by decide)⟩

theorem hfcConflict_st (env : PullEnv) (c : Change) (lr lp : GoStr) (p : PullStep) :
    (hfcConflict env c lr lp p).st = p.st := by
  unfold hfcConflict
  dsimp only
  repeat' split
  all_goals rfl

theorem hfcConflict_downloaded (env : PullEnv) (c : Change) (lr lp : GoStr) (p : PullStep) :
    (hfcConflict env c lr lp p).res.downloaded = p.res.downloaded := by
  unfold hfcConflict
  dsimp only
  repeat' split
  all_goals rfl

theorem hfcConflict_errors (env : PullEnv) (c : Change) (lr lp : GoStr) (p : PullStep) :
    p.res.errors <+: (hfcConflict env c lr lp p).res.errors := by
  unfold hfcConflict
  dsimp only
  repeat' split
  all_goals first
    | exact List.prefix_refl _
    | exact ⟨_, rfl⟩

/-- Claim C3: once a file create or modify change reaches the install
    step, the download goes into the temp file path.izerop-tmp and, on
    success, is renamed over the final path which then holds the server
    bytes; when the download or the rename fails, the temp file is
    removed, one soft error is appended behind the previous errors, the
    sync state entry for the path is untouched, and the downloaded
    counter does not move (the pull loop then continues with the next
    change). -/
theorem c3_temp_install_failures (env : PullEnv) (c : Change) (p : PullStep)
    (localRel0 localRel localPath : GoStr)
    (h0 : remoteToLocal env.rootDir c.path = localRel0)
    (hne : localRel0 ≠ [])
    (hrel : localRel = (if goExt localRel0 = [] then localRel0 ++ (".txt".toList) else localRel0))
    (hig : IsIgnored env.ignore localRel false = false)
    (hact : c.action = ("created".toList) ∨ c.action = ("modified".toList))
    (hpath : localPath = joinPath env.syncDir localRel)
    (hrecent : (match lookupA p.fs localPath with
                | some info => decide (env.now - info.mtime < 30)
                | none => false) = false)
    (hskip : (decide (c.contentHash ≠ []) &&
              match lookupA p.fs localPath with
              | some info => decide (env.hashHex info.bytes = c.contentHash)
              | none => false) = false)
    (hcreate : env.createOk (tmpName localPath) = true) :
    ((env.download c.id = none ∨ env.renameOk localPath = false) →
      (handleFileChange env c p).st = p.st ∧
      lookupA (handleFileChange env c p).fs (tmpName localPath) = none ∧
      (handleFileChange env c p).res.downloaded = p.res.downloaded ∧
      p.res.errors <+: (handleFileChange env c p).res.errors ∧
      p.res.errors.length < (handleFileChange env c p).res.errors.length) ∧
    (∀ bytes, env.download c.id = some bytes → env.renameOk localPath = true →
      lookupA (handleFileChange env c p).fs localPath = some ⟨bytes, env.writeMtime⟩ ∧
      lookupA (handleFileChange env c p).fs (tmpName localPath) = none ∧
      (handleFileChange env c p).res.downloaded = p.res.downloaded + 1 ∧
      (∃ pre, (handleFileChange env c p).ops =
        pre ++ [FsOp.create (tmpName localPath), FsOp.rename (tmpName localPath) localPath])) := by
  subst hpath
  subst hrel
  subst h0
  have htxt : (".txt".toList : GoStr) = ['.', 't', 'x', 't'] := rfl
  simp only [htxt] at hig hrecent hskip hcreate ⊢
  unfold handleFileChange
  rw [if_neg hne]
  simp only [htxt, hig, Bool.false_eq_true, if_false, if_pos hact]
  unfold hfcCreatedModified
  simp only [hrecent, Bool.false_eq_true, if_false, hskip]
  set q := hfcConflict env c _ _ _ with hq
  have hqst := hfcConflict_st env c
    (if goExt (remoteToLocal env.rootDir c.path) = [] then
      remoteToLocal env.rootDir c.path ++ ['.', 't', 'x', 't']
     else remoteToLocal env.rootDir c.path)
    (joinPath env.syncDir
      (if goExt (remoteToLocal env.rootDir c.path) = [] then
        remoteToLocal env.rootDir c.path ++ ['.', 't', 'x', 't']
       else remoteToLocal env.rootDir c.path))
    { p with ops := p.ops ++ [FsOp.mkdirAll (goDir (joinPath env.syncDir
        (if goExt (remoteToLocal env.rootDir c.path) = [] then
          remoteToLocal env.rootDir c.path ++ ['.', 't', 'x', 't']
         else remoteToLocal env.rootDir c.path)))] }
  have hqdl := hfcConflict_downloaded env c
    (if goExt (remoteToLocal env.rootDir c.path) = [] then
      remoteToLocal env.rootDir c.path ++ ['.', 't', 'x', 't']
     else remoteToLocal env.rootDir c.path)
    (joinPath env.syncDir
      (if goExt (remoteToLocal env.rootDir c.path) = [] then
        remoteToLocal env.rootDir c.path ++ ['.', 't', 'x', 't']
       else remoteToLocal env.rootDir c.path))
    { p with ops := p.ops ++ [FsOp.mkdirAll (goDir (joinPath env.syncDir
        (if goExt (remoteToLocal env.rootDir c.path) = [] then
          remoteToLocal env.rootDir c.path ++ ['.', 't', 'x', 't']
         else remoteToLocal env.rootDir c.path)))] }
  have hqerr := hfcConflict_errors env c
    (if goExt (remoteToLocal env.rootDir c.path) = [] then
      remoteToLocal env.rootDir c.path ++ ['.', 't', 'x', 't']
     else remoteToLocal env.rootDir c.path)
    (joinPath env.syncDir
      (if goExt (remoteToLocal env.rootDir c.path) = [] then
        remoteToLocal env.rootDir c.path ++ ['.', 't', 'x', 't']
       else remoteToLocal env.rootDir c.path))
    { p with ops := p.ops ++ [FsOp.mkdirAll (goDir (joinPath env.syncDir
        (if goExt (remoteToLocal env.rootDir c.path) = [] then
          remoteToLocal env.rootDir c.path ++ ['.', 't', 'x', 't']
         else remoteToLocal env.rootDir c.path)))] }
  rw [← hq] at hqst hqdl hqerr
  have hqst' : q.st = p.st := hqst
  have hqdl' : q.res.downloaded = p.res.downloaded := hqdl
  have hqerr' : p.res.errors <+: q.res.errors := hqerr
  constructor
  · intro hfail
    unfold hfcInstall
    rw [if_neg (by simp [hcreate])]
    rcases hfail with hdl | hrn
    · simp only [hdl]
      refine ⟨hqst', lookupA_erase_self _ _, hqdl', ?_, ?_⟩
      · exact hqerr'.trans ⟨_, rfl⟩
      · calc p.res.errors.length ≤ q.res.errors.length := hqerr'.length_le
          _ < q.res.errors.length + 1 := Nat.lt_succ_self _
          _ = (q.res.errors ++ [("download ".toList) ++ c.path]).length := by simp
    · cases hdl : env.download c.id with
      | none =>
        simp only
        refine ⟨hqst', lookupA_erase_self _ _, hqdl', ?_, ?_⟩
        · exact hqerr'.trans ⟨_, rfl⟩
        · calc p.res.errors.length ≤ q.res.errors.length := hqerr'.length_le
            _ < q.res.errors.length + 1 := Nat.lt_succ_self _
            _ = (q.res.errors ++ [("download ".toList) ++ c.path]).length := by simp
      | some bytes =>
        simp only
        rw [if_pos (by simp [hrn])]
        refine ⟨hqst', lookupA_erase_self _ _, hqdl', ?_, ?_⟩
        · exact hqerr'.trans ⟨_, rfl⟩
        · calc p.res.errors.length ≤ q.res.errors.length := hqerr'.length_le
            _ < q.res.errors.length + 1 := Nat.lt_succ_self _
            _ = (q.res.errors ++ [("rename ".toList) ++ _]).length := by simp
  · intro bytes hdl hrn
    unfold hfcInstall
    rw [if_neg (by simp [hcreate])]
    simp only [hdl]
    rw [if_neg (by simp [hrn])]
    refine ⟨lookupA_insert_self _ _ _, ?_, by simp [hqdl'], ?_⟩
    · rw [lookupA_insert_ne _ _ _ _ (fun h => tmpName_ne_self _ h.symm)]
      exact lookupA_erase_self _ _
    · exact ⟨q.ops, by simp⟩

/-- Witness for C3 at the fixture inputs with a failing download: the
    state survives, the temp file is gone and one error is appended. -/
theorem c3_temp_install_failures_witness :
    (fixPullEnv.download ("zz".toList) = none ∨
      fixPullEnv.renameOk ("/s/a.txt".toList) = false) ∧
    ((handleFileChange fixPullEnv
        { fixChange with contentHash := "H3".toList, id := "zz".toList } fixStep).st =
      fixStep.st ∧
    lookupA (handleFileChange fixPullEnv
        { fixChange with contentHash := "H3".toList, id := "zz".toList } fixStep).fs
      (tmpName ("/s/a.txt".toList)) = none ∧
    (handleFileChange fixPullEnv
        { fixChange with contentHash := "H3".toList, id := "zz".toList } fixStep).res.downloaded =
      fixStep.res.downloaded ∧
    fixStep.res.errors <+: (handleFileChange fixPullEnv
        { fixChange with contentHash := "H3".toList, id := "zz".toList } fixStep).res.errors ∧
    fixStep.res.errors.length < (handleFileChange fixPullEnv
        { fixChange with contentHash := "H3".toList, id := "zz".toList } fixStep).res.errors.length) :=
  ⟨Or.inl (by decide),
    (c3_temp_install_failures fixPullEnv
      { fixChange with contentHash := "H3".toList, id := "zz".toList } fixStep
      ("a.txt".toList) ("a.txt".toList) ("/s/a.txt".toList)
      (by decide) (by decide) (by decide) (by decide) (Or.inr (by decide))
      (by decide) (by decide) (by decide) (by decide)).1 (Or.inl (by decide))⟩

theorem eraseA_sub {β : Type} (m : List (GoStr × β)) (k : GoStr) :
    ∀ kv ∈ eraseA m k, kv ∈ m := by
  intro kv hkv
  exact List.mem_of_mem_filter hkv

theorem eraseA_key {β : Type} (m : List (GoStr × β)) (k : GoStr) :
    ∀ kv ∈ eraseA m k, kv.1 ≠ k := by
  intro kv hkv
  have := List.of_mem_filter hkv
  simpa using this

theorem lookupA_none_of_no_key {β : Type} (m : List (GoStr × β)) (k : GoStr)
    (h : ∀ kv ∈ m, kv.1 ≠ k) : lookupA m k = none := by
  induction m with
  | nil => rfl
  | cons kv rest ih =>
    have h1 : kv.1 ≠ k := h kv (List.mem_cons_self _ _)
    simp only [lookupA, if_neg h1]
    exact ih (fun kv' hkv' => h kv' (List.mem_cons_of_mem _ hkv'))

theorem no_key_of_lookupA_none {β : Type} (m : List (GoStr × β)) (k : GoStr)
    (h : lookupA m k = none) : ∀ kv ∈ m, kv.1 ≠ k := by
  induction m with
  | nil => intro kv hkv; cases hkv
  | cons kv0 rest ih =>
    intro kv hkv
    by_cases h0 : kv0.1 = k
    · rw [show kv0 = (kv0.1, kv0.2) from rfl] at h
      simp [lookupA, if_pos h0] at h
    · rcases List.mem_cons.mp hkv with h1 | h1
      · rw [h1]; exact h0
      · refine ih ?_ kv h1
        rw [show kv0 = (kv0.1, kv0.2) from rfl] at h
        simpa [lookupA, if_neg h0] using h

theorem mem_of_lookupA_some {β : Type} (m : List (GoStr × β)) (k : GoStr) (v : β)
    (h : lookupA m k = some v) : (k, v) ∈ m := by
  induction m with
  | nil => cases h
  | cons kv0 rest ih =>
    by_cases h0 : kv0.1 = k
    · rw [show kv0 = (kv0.1, kv0.2) from rfl] at h
      simp only [lookupA, if_pos h0] at h
      rw [show kv0 = (kv0.1, kv0.2) from rfl, h0]
      cases h
      exact List.mem_cons_self _ _
    · rw [show kv0 = (kv0.1, kv0.2) from rfl] at h
      simp only [lookupA, if_neg h0] at h
      exact List.mem_cons_of_mem _ (ih h)

theorem propFileStep_notes (ex del : GoStr → Bool) (s : PushSt) (kv : GoStr × FileRecord) :
    (propFileStep ex del s kv).notes = s.notes := by
  unfold propFileStep
  dsimp only
  repeat' split
  all_goals rfl

theorem propFileStep_files_sub (ex del : GoStr → Bool) (s : PushSt) (kv : GoStr × FileRecord) :
    ∀ kv' ∈ (propFileStep ex del s kv).files, kv' ∈ s.files := by
  unfold propFileStep
  dsimp only
  repeat' split
  all_goals intro kv' hkv'
  · exact hkv'
  · exact eraseA_sub _ _ _ hkv'
  · exact eraseA_sub _ _ _ hkv'
  · exact eraseA_sub _ _ _ hkv'

theorem propFileStep_no_key (ex del : GoStr → Bool) (s : PushSt) (kv : GoStr × FileRecord)
    (hex : ex kv.1 = false) :
    ∀ kv' ∈ (propFileStep ex del s kv).files, kv'.1 ≠ kv.1 := by
  unfold propFileStep
  rw [if_neg (by simp [hex])]
  dsimp only
  repeat' split
  all_goals intro kv' hkv'
  · exact eraseA_key _ _ _ hkv'
  · exact eraseA_key _ _ _ hkv'
  · exact eraseA_key _ _ _ hkv'

theorem propFileStep_deleted (ex del : GoStr → Bool) (s : PushSt) (kv : GoStr × FileRecord) :
    (propFileStep ex del s kv).res.deleted = s.res.deleted +
      (if !ex kv.1 && !decide (kv.2.remoteID = []) && del kv.2.remoteID then 1 else 0) := by
  unfold propFileStep
  cases hex : ex kv.1 <;> cases hid : decide (kv.2.remoteID = []) <;>
    cases hdel : del kv.2.remoteID <;>
      simp_all [decide_eq_true_eq]

theorem propFileStep_errlen (ex del : GoStr → Bool) (s : PushSt) (kv : GoStr × FileRecord) :
    (propFileStep ex del s kv).res.errors.length = s.res.errors.length +
      (if !ex kv.1 && !decide (kv.2.remoteID = []) && !del kv.2.remoteID then 1 else 0) := by
  unfold propFileStep
  cases hex : ex kv.1 <;> cases hid : decide (kv.2.remoteID = []) <;>
    cases hdel : del kv.2.remoteID <;>
      simp_all [decide_eq_true_eq]

theorem propFileStep_calls (ex del : GoStr → Bool) (s : PushSt) (kv : GoStr × FileRecord) :
    ∀ c ∈ (propFileStep ex del s kv).calls,
      c ∈ s.calls ∨ c = PushCall.deleteFile kv.1 kv.2.remoteID := by
  unfold propFileStep
  dsimp only
  repeat' split
  all_goals intro c hc
  · exact Or.inl hc
  · exact Or.inl hc
  · simpa using List.mem_append.mp hc
  · simpa using List.mem_append.mp hc

theorem propNoteStep_files_sub (ex del : GoStr → Bool) (s : PushSt) (kv : GoStr × GoStr) :
    ∀ kv' ∈ (propNoteStep ex del s kv).files, kv' ∈ s.files := by
  unfold propNoteStep
  dsimp only
  repeat' split
  all_goals intro kv' hkv'
  · exact hkv'
  · exact eraseA_sub _ _ _ hkv'
  · exact eraseA_sub _ _ _ hkv'

theorem propNoteStep_notes_sub (ex del : GoStr → Bool) (s : PushSt) (kv : GoStr × GoStr) :
    ∀ kv' ∈ (propNoteStep ex del s kv).notes, kv' ∈ s.notes := by
  unfold propNoteStep
  dsimp only
  repeat' split
  all_goals intro kv' hkv'
  · exact hkv'
  · exact eraseA_sub _ _ _ hkv'
  · exact eraseA_sub _ _ _ hkv'

theorem propNoteStep_deleted (ex del : GoStr → Bool) (s : PushSt) (kv : GoStr × GoStr) :
    (propNoteStep ex del s kv).res.deleted = s.res.deleted +
      (if !ex kv.1 && del kv.2 then 1 else 0) := by
  unfold propNoteStep
  cases hex : ex kv.1 <;> cases hdel : del kv.2 <;> simp_all

theorem propNoteStep_calls (ex del : GoStr → Bool) (s : PushSt) (kv : GoStr × GoStr) :
    ∀ c ∈ (propNoteStep ex del s kv).calls,
      c ∈ s.calls ∨ c = PushCall.deleteFile kv.1 kv.2 := by
  unfold propNoteStep
  dsimp only
  repeat' split
  all_goals intro c hc
  · exact Or.inl hc
  · simpa using List.mem_append.mp hc
  · simpa using List.mem_append.mp hc

theorem propFiles_notes (ex del : GoStr → Bool) (entries : List (GoStr × FileRecord)) :
    ∀ s : PushSt, (propFiles ex del entries s).notes = s.notes := by
  induction entries with
  | nil => intro s; rfl
  | cons kv rest ih =>
    intro s
    unfold propFiles at *
    rw [List.foldl_cons, ih, propFileStep_notes]

theorem propFiles_files_sub (ex del : GoStr → Bool) (entries : List (GoStr × FileRecord)) :
    ∀ s : PushSt, ∀ kv' ∈ (propFiles ex del entries s).files, kv' ∈ s.files := by
  induction entries with
  | nil => intro s kv' h; exact h
  | cons kv rest ih =>
    intro s kv' h
    unfold propFiles at *
    rw [List.foldl_cons] at h
    exact propFileStep_files_sub ex del s kv kv' (ih _ kv' h)

theorem propFiles_deleted (ex del : GoStr → Bool) (entries : List (GoStr × FileRecord)) :
    ∀ s : PushSt, (propFiles ex del entries s).res.deleted = s.res.deleted +
      (entries.filter
        (fun kv => !ex kv.1 && !decide (kv.2.remoteID = []) && del kv.2.remoteID)).length := by
  induction entries with
  | nil => intro s; simp [propFiles]
  | cons kv rest ih =>
    intro s
    unfold propFiles at *
    rw [List.foldl_cons, ih, propFileStep_deleted]
    cases h : (!ex kv.1 && !decide (kv.2.remoteID = []) && del kv.2.remoteID) with
    | true => simp only [List.filter_cons, h, if_true, List.length_cons]; omega
    | false => simp only [List.filter_cons, h, Bool.false_eq_true, if_false]; omega

theorem propFiles_errlen (ex del : GoStr → Bool) (entries : List (GoStr × FileRecord)) :
    ∀ s : PushSt, (propFiles ex del entries s).res.errors.length = s.res.errors.length +
      (entries.filter
        (fun kv => !ex kv.1 && !decide (kv.2.remoteID = []) && !del kv.2.remoteID)).length := by
  induction entries with
  | nil => intro s; simp [propFiles]
  | cons kv rest ih =>
    intro s
    unfold propFiles at *
    rw [List.foldl_cons, ih, propFileStep_errlen]
    cases h : (!ex kv.1 && !decide (kv.2.remoteID = []) && !del kv.2.remoteID) with
    | true => simp only [List.filter_cons, h, if_true, List.length_cons]; omega
    | false => simp only [List.filter_cons, h, Bool.false_eq_true, if_false]; omega

theorem propFiles_calls (ex del : GoStr → Bool) (entries : List (GoStr × FileRecord)) :
    ∀ s : PushSt, ∀ c ∈ (propFiles ex del entries s).calls,
      c ∈ s.calls ∨ ∃ kv ∈ entries, c = PushCall.deleteFile kv.1 kv.2.remoteID := by
  induction entries with
  | nil => intro s c h; exact Or.inl h
  | cons kv rest ih =>
    intro s c h
    unfold propFiles at *
    rw [List.foldl_cons] at h
    rcases ih _ c h with h1 | ⟨kv', hkv', hc⟩
    · rcases propFileStep_calls ex del s kv c h1 with h2 | h2
      · exact Or.inl h2
      · exact Or.inr ⟨kv, List.mem_cons_self _ _, h2⟩
    · exact Or.inr ⟨kv', List.mem_cons_of_mem _ hkv', hc⟩

theorem propFiles_no_key (ex del : GoStr → Bool) (entries : List (GoStr × FileRecord)) :
    ∀ s : PushSt, ∀ rel, rel ∈ entries.map Prod.fst → ex rel = false →
      ∀ kv' ∈ (propFiles ex del entries s).files, kv'.1 ≠ rel := by
  induction entries with
  | nil => intro s rel hmem; cases hmem
  | cons kv rest ih =>
    intro s rel hmem hex kv' hkv'
    unfold propFiles at *
    rw [List.foldl_cons] at hkv'
    rcases List.mem_cons.mp hmem with h1 | h1
    · subst h1
      have hsub := propFiles_files_sub ex del rest _ kv' hkv'
      exact propFileStep_no_key ex del s kv hex kv' hsub
    · exact ih _ rel h1 hex kv' hkv'

theorem propNotes_files_sub (ex del : GoStr → Bool) (entries : List (GoStr × GoStr)) :
    ∀ s : PushSt, ∀ kv' ∈ (propNotes ex del entries s).files, kv' ∈ s.files := by
  induction entries with
  | nil => intro s kv' h; exact h
  | cons kv rest ih =>
    intro s kv' h
    unfold propNotes at *
    rw [List.foldl_cons] at h
    exact propNoteStep_files_sub ex del s kv kv' (ih _ kv' h)

theorem propNotes_notes_sub (ex del : GoStr → Bool) (entries : List (GoStr × GoStr)) :
    ∀ s : PushSt, ∀ kv' ∈ (propNotes ex del entries s).notes, kv' ∈ s.notes := by
  induction entries with
  | nil => intro s kv' h; exact h
  | cons kv rest ih =>
    intro s kv' h
    unfold propNotes at *
    rw [List.foldl_cons] at h
    exact propNoteStep_notes_sub ex del s kv kv' (ih _ kv' h)

theorem propNotes_deleted (ex del : GoStr → Bool) (entries : List (GoStr × GoStr)) :
    ∀ s : PushSt, (propNotes ex del entries s).res.deleted = s.res.deleted +
      (entries.filter (fun kv => !ex kv.1 && del kv.2)).length := by
  induction entries with
  | nil => intro s; simp [propNotes]
  | cons kv rest ih =>
    intro s
    unfold propNotes at *
    rw [List.foldl_cons, ih, propNoteStep_deleted]
    cases h : (!ex kv.1 && del kv.2) with
    | true => simp only [List.filter_cons, h, if_true, List.length_cons]; omega
    | false => simp only [List.filter_cons, h, Bool.false_eq_true, if_false]; omega

theorem propNotes_calls (ex del : GoStr → Bool) (entries : List (GoStr × GoStr)) :
    ∀ s : PushSt, ∀ c ∈ (propNotes ex del entries s).calls,
      c ∈ s.calls ∨ ∃ kv ∈ entries, c = PushCall.deleteFile kv.1 kv.2 := by
  induction entries with
  | nil => intro s c h; exact Or.inl h
  | cons kv rest ih =>
    intro s c h
    unfold propNotes at *
    rw [List.foldl_cons] at h
    rcases ih _ c h with h1 | ⟨kv', hkv', hc⟩
    · rcases propNoteStep_calls ex del s kv c h1 with h2 | h2
      · exact Or.inl h2
      · exact Or.inr ⟨kv, List.mem_cons_self _ _, h2⟩
    · exact Or.inr ⟨kv', List.mem_cons_of_mem _ hkv', hc⟩

theorem propNoteStep_errlen (ex del : GoStr → Bool) (s : PushSt) (kv : GoStr × GoStr) :
    (propNoteStep ex del s kv).res.errors.length = s.res.errors.length +
      (if !ex kv.1 && !del kv.2 then 1 else 0) := by
  unfold propNoteStep
  cases hex : ex kv.1 <;> cases hdel : del kv.2 <;> simp_all

theorem propNotes_errlen (ex del : GoStr → Bool) (entries : List (GoStr × GoStr)) :
    ∀ s : PushSt, (propNotes ex del entries s).res.errors.length = s.res.errors.length +
      (entries.filter (fun kv => !ex kv.1 && !del kv.2)).length := by
  induction entries with
  | nil => intro s; simp [propNotes]
  | cons kv rest ih =>
    intro s
    unfold propNotes at *
    rw [List.foldl_cons, ih, propNoteStep_errlen]
    cases h : (!ex kv.1 && !del kv.2) with
    | true => simp only [List.filter_cons, h, if_true, List.length_cons]; omega
    | false => simp only [List.filter_cons, h, Bool.false_eq_true, if_false]; omega

theorem pushDeletionPhase_calls (ex del : GoStr → Bool) (s : PushSt) :
    ∀ c ∈ (pushDeletionPhase ex del s).calls,
      c ∈ s.calls ∨ (∃ kv ∈ s.files, c = PushCall.deleteFile kv.1 kv.2.remoteID) ∨
        (∃ kv ∈ s.notes, c = PushCall.deleteFile kv.1 kv.2) := by
  intro c hc
  unfold pushDeletionPhase at hc
  rcases propNotes_calls ex del _ _ _ hc with h1 | ⟨kv, hkv, hcc⟩
  · rcases propFiles_calls ex del _ _ _ h1 with h2 | ⟨kv, hkv, hcc⟩
    · exact Or.inl h2
    · exact Or.inr (Or.inl ⟨kv, hkv, hcc⟩)
  · rw [propFiles_notes] at hkv
    exact Or.inr (Or.inr ⟨kv, hkv, hcc⟩)

theorem propNoteStep_no_key (ex del : GoStr → Bool) (s : PushSt) (kv : GoStr × GoStr)
    (hex : ex kv.1 = false) :
    ∀ kv' ∈ (propNoteStep ex del s kv).notes, kv'.1 ≠ kv.1 := by
  unfold propNoteStep
  rw [if_neg (by simp [hex])]
  dsimp only
  repeat' split
  all_goals intro kv' hkv'
  all_goals exact eraseA_key _ _ _ hkv'

theorem propNoteStep_no_key_files (ex del : GoStr → Bool) (s : PushSt) (kv : GoStr × GoStr)
    (hex : ex kv.1 = false) :
    ∀ kv' ∈ (propNoteStep ex del s kv).files, kv'.1 ≠ kv.1 := by
  unfold propNoteStep
  rw [if_neg (by simp [hex])]
  dsimp only
  repeat' split
  all_goals intro kv' hkv'
  all_goals exact eraseA_key _ _ _ hkv'

theorem propNotes_no_key (ex del : GoStr → Bool) (entries : List (GoStr × GoStr)) :
    ∀ s : PushSt, ∀ rel, rel ∈ entries.map Prod.fst → ex rel = false →
      ∀ kv' ∈ (propNotes ex del entries s).notes, kv'.1 ≠ rel := by
  induction entries with
  | nil => intro s rel hmem; cases hmem
  | cons kv rest ih =>
    intro s rel hmem hex kv' hkv'
    unfold propNotes at *
    rw [List.foldl_cons] at hkv'
    rcases List.mem_cons.mp hmem with h1 | h1
    · subst h1
      have hsub := propNotes_notes_sub ex del rest _ kv' hkv'
      exact propNoteStep_no_key ex del s kv hex kv' hsub
    · exact ih _ rel h1 hex kv' hkv'

theorem propNotes_no_key_files (ex del : GoStr → Bool) (entries : List (GoStr × GoStr)) :
    ∀ s : PushSt, ∀ rel, rel ∈ entries.map Prod.fst → ex rel = false →
      ∀ kv' ∈ (propNotes ex del entries s).files, kv'.1 ≠ rel := by
  induction entries with
  | nil => intro s rel hmem; cases hmem
  | cons kv rest ih =>
    intro s rel hmem hex kv' hkv'
    unfold propNotes at *
    rw [List.foldl_cons] at hkv'
    rcases List.mem_cons.mp hmem with h1 | h1
    · subst h1
      have hsub := propNotes_files_sub ex del rest _ kv' hkv'
      exact propNoteStep_no_key_files ex del s kv hex kv' hsub
    · exact ih _ rel h1 hex kv' hkv'

/-- Claim C10: in the deletion-propagation phase of push, a tracked
    entry whose local copy is gone is dropped from the state even when
    the remote delete fails, both for a path tracked in state.files and
    for a path tracked in state.notes (the latter is also cleaned from
    state.files); the failure only appends a soft error, the deleted
    counter counts exactly the successful deletions, and because the
    entry is gone a following run of the phase never issues a delete for
    that path again. -/
theorem c10_deletion_drop :
    (∀ (ex del : GoStr → Bool) (s : PushSt) (rel : GoStr) (rec : FileRecord),
      lookupA s.files rel = some rec → ex rel = false → rec.remoteID ≠ [] →
      del rec.remoteID = false →
      lookupA (pushDeletionPhase ex del s).files rel = none ∧
      s.res.errors.length < (pushDeletionPhase ex del s).res.errors.length ∧
      (pushDeletionPhase ex del s).res.deleted = s.res.deleted +
        (s.files.filter
          (fun kv => !ex kv.1 && !decide (kv.2.remoteID = []) && del kv.2.remoteID)).length +
        (s.notes.filter (fun kv => !ex kv.1 && del kv.2)).length ∧
      (∀ fid, PushCall.deleteFile rel fid ∉
        (pushDeletionPhase ex del
          { pushDeletionPhase ex del s with calls := [] }).calls)) ∧
    (∀ (ex del : GoStr → Bool) (s : PushSt) (rel nid : GoStr),
      lookupA s.notes rel = some nid → ex rel = false → del nid = false →
      lookupA (pushDeletionPhase ex del s).notes rel = none ∧
      lookupA (pushDeletionPhase ex del s).files rel = none ∧
      s.res.errors.length < (pushDeletionPhase ex del s).res.errors.length ∧
      (pushDeletionPhase ex del s).res.deleted = s.res.deleted +
        (s.files.filter
          (fun kv => !ex kv.1 && !decide (kv.2.remoteID = []) && del kv.2.remoteID)).length +
        (s.notes.filter (fun kv => !ex kv.1 && del kv.2)).length ∧
      (∀ fid, PushCall.deleteFile rel fid ∉
        (pushDeletionPhase ex del
          { pushDeletionPhase ex del s with calls := [] }).calls)) := by
  constructor
  · intro ex del s rel rec hf hex hid hdel
    have hmemp : (rel, rec) ∈ s.files := mem_of_lookupA_some _ _ _ hf
    have hmem : rel ∈ s.files.map Prod.fst := by
      exact List.mem_map.mpr ⟨(rel, rec), hmemp, rfl⟩
    have hnokey1 : ∀ kv' ∈ (propFiles ex del s.files s).files, kv'.1 ≠ rel :=
      propFiles_no_key ex del s.files s rel hmem hex
    have hnokeyT : ∀ kv' ∈ (pushDeletionPhase ex del s).files, kv'.1 ≠ rel := by
      intro kv' hkv'
      unfold pushDeletionPhase at hkv'
      exact hnokey1 kv' (propNotes_files_sub ex del _ _ kv' hkv')
    have hTnotes_nokey : ∀ kv' ∈ (pushDeletionPhase ex del s).notes, kv'.1 ≠ rel := by
      cases hln : lookupA s.notes rel with
      | none =>
        intro kv' hkv'
        unfold pushDeletionPhase at hkv'
        have h1 := propNotes_notes_sub ex del _ _ kv' hkv'
        rw [propFiles_notes] at h1
        exact no_key_of_lookupA_none s.notes rel hln kv' h1
      | some nid =>
        intro kv' hkv'
        unfold pushDeletionPhase at hkv'
        have hrelmem : rel ∈ (propFiles ex del s.files s).notes.map Prod.fst := by
          rw [propFiles_notes]
          exact List.mem_map.mpr ⟨(rel, nid), mem_of_lookupA_some _ _ _ hln, rfl⟩
        exact propNotes_no_key ex del _ _ rel hrelmem hex kv' hkv'
    refine ⟨lookupA_none_of_no_key _ _ hnokeyT, ?_, ?_, ?_⟩
    · unfold pushDeletionPhase
      rw [propNotes_errlen, propFiles_errlen]
      have hmemf : (rel, rec) ∈ s.files.filter
          (fun kv => !ex kv.1 && !decide (kv.2.remoteID = []) && !del kv.2.remoteID) := by
        refine List.mem_filter.mpr ⟨hmemp, ?_⟩
        simp [hex, hdel, hid]
      have hpos : 0 < (s.files.filter
          (fun kv => !ex kv.1 && !decide (kv.2.remoteID = []) && !del kv.2.remoteID)).length :=
        List.length_pos.mpr (List.ne_nil_of_mem hmemf)
      omega
    · unfold pushDeletionPhase
      rw [propNotes_deleted, propFiles_deleted, propFiles_notes]
    · intro fid hin
      rcases pushDeletionPhase_calls ex del _ _ hin with h0 | ⟨kv, hkv, hc⟩ | ⟨kv, hkv, hc⟩
      · simp at h0
      · injection hc with e1 e2
        have hkvT : kv ∈ (pushDeletionPhase ex del s).files := hkv
        exact hnokeyT kv hkvT e1.symm
      · injection hc with e1 e2
        have hkvT : kv ∈ (pushDeletionPhase ex del s).notes := hkv
        exact hTnotes_nokey kv hkvT e1.symm
  · intro ex del s rel nid hn hex hdel
    have hmemp : (rel, nid) ∈ s.notes := mem_of_lookupA_some _ _ _ hn
    have hrelmem : rel ∈ (propFiles ex del s.files s).notes.map Prod.fst := by
      rw [propFiles_notes]
      exact List.mem_map.mpr ⟨(rel, nid), hmemp, rfl⟩
    have hnkN : ∀ kv' ∈ (pushDeletionPhase ex del s).notes, kv'.1 ≠ rel := by
      intro kv' hkv'
      unfold pushDeletionPhase at hkv'
      exact propNotes_no_key ex del _ _ rel hrelmem hex kv' hkv'
    have hnkF : ∀ kv' ∈ (pushDeletionPhase ex del s).files, kv'.1 ≠ rel := by
      intro kv' hkv'
      unfold pushDeletionPhase at hkv'
      exact propNotes_no_key_files ex del _ _ rel hrelmem hex kv' hkv'
    refine ⟨lookupA_none_of_no_key _ _ hnkN, lookupA_none_of_no_key _ _ hnkF, ?_, ?_, ?_⟩
    · unfold pushDeletionPhase
      rw [propNotes_errlen, propFiles_errlen, propFiles_notes]
      have hmemn : (rel, nid) ∈ s.notes.filter (fun kv => !ex kv.1 && !del kv.2) := by
        refine List.mem_filter.mpr ⟨hmemp, ?_⟩
        simp [hex, hdel]
      have hpos : 0 < (s.notes.filter (fun kv => !ex kv.1 && !del kv.2)).length :=
        List.length_pos.mpr (List.ne_nil_of_mem hmemn)
      omega
    · unfold pushDeletionPhase
      rw [propNotes_deleted, propFiles_deleted, propFiles_notes]
    · intro fid hin
      rcases pushDeletionPhase_calls ex del _ _ hin with h0 | ⟨kv, hkv, hc⟩ | ⟨kv, hkv, hc⟩
      · simp at h0
      · injection hc with e1 e2
        have hkvT : kv ∈ (pushDeletionPhase ex del s).files := hkv
        exact hnkF kv hkvT e1.symm
      · injection hc with e1 e2
        have hkvT : kv ∈ (pushDeletionPhase ex del s).notes := hkv
        exact hnkN kv hkvT e1.symm

/-- Witness for C10 at the fixture state: the missing tracked file and
    the missing tracked note are both dropped although the remote deletes
    fail, the error list grows, only successful deletions are counted,
    and a second run issues no delete for either dropped path. -/
theorem c10_deletion_drop_witness :
    lookupA fixDelSt.files ("gone.txt".toList) =
      some ⟨"r9".toList, 1, "h".toList, "t".toList, 5⟩ ∧
    lookupA fixDelSt.notes ("gnote.txt".toList) = some ("r7".toList) ∧
    (lookupA (pushDeletionPhase (fun p => decide (p = ("kept.txt".toList))) (fun _ => false)
        fixDelSt).files ("gone.txt".toList) = none ∧
      fixDelSt.res.errors.length <
        (pushDeletionPhase (fun p => decide (p = ("kept.txt".toList))) (fun _ => false)
          fixDelSt).res.errors.length ∧
      (pushDeletionPhase (fun p => decide (p = ("kept.txt".toList))) (fun _ => false)
          fixDelSt).res.deleted = fixDelSt.res.deleted +
        (fixDelSt.files.filter
          (fun kv => !decide (kv.1 = ("kept.txt".toList)) &&
            !decide (kv.2.remoteID = []) && (fun (_ : GoStr) => false) kv.2.remoteID)).length +
        (fixDelSt.notes.filter
          (fun kv => !decide (kv.1 = ("kept.txt".toList)) &&
            (fun (_ : GoStr) => false) kv.2)).length ∧
      (∀ fid, PushCall.deleteFile ("gone.txt".toList) fid ∉
        (pushDeletionPhase (fun p => decide (p = ("kept.txt".toList))) (fun _ => false)
          { pushDeletionPhase (fun p => decide (p = ("kept.txt".toList))) (fun _ => false)
              fixDelSt with calls := [] }).calls)) ∧
    (lookupA (pushDeletionPhase (fun p => decide (p = ("kept.txt".toList))) (fun _ => false)
        fixDelSt).notes ("gnote.txt".toList) = none ∧
      lookupA (pushDeletionPhase (fun p => decide (p = ("kept.txt".toList))) (fun _ => false)
        fixDelSt).files ("gnote.txt".toList) = none ∧
      fixDelSt.res.errors.length <
        (pushDeletionPhase (fun p => decide (p = ("kept.txt".toList))) (fun _ => false)
          fixDelSt).res.errors.length ∧
      (pushDeletionPhase (fun p => decide (p = ("kept.txt".toList))) (fun _ => false)
          fixDelSt).res.deleted = fixDelSt.res.deleted +
        (fixDelSt.files.filter
          (fun kv => !decide (kv.1 = ("kept.txt".toList)) &&
            !decide (kv.2.remoteID = []) && (fun (_ : GoStr) => false) kv.2.remoteID)).length +
        (fixDelSt.notes.filter
          (fun kv => !decide (kv.1 = ("kept.txt".toList)) &&
            (fun (_ : GoStr) => false) kv.2)).length ∧
      (∀ fid, PushCall.deleteFile ("gnote.txt".toList) fid ∉
        (pushDeletionPhase (fun p => decide (p = ("kept.txt".toList))) (fun _ => false)
          { pushDeletionPhase (fun p => decide (p = ("kept.txt".toList))) (fun _ => false)
              fixDelSt with calls := [] }).calls)) :=
  ⟨by decide, by decide,
    c10_deletion_drop.1 (fun p => decide (p = ("kept.txt".toList))) (fun _ => false)
      fixDelSt ("gone.txt".toList) ⟨"r9".toList, 1, "h".toList, "t".toList, 5⟩
      (by decide) (by decide) (by decide) (by decide),
    c10_deletion_drop.2 (fun p => decide (p = ("kept.txt".toList))) (fun _ => false)
      fixDelSt ("gnote.txt".toList) ("r7".toList)
      (by decide) (by decide) (by decide)⟩

/-- Claim C5, evaluated at the failing trace: the watcher loop is a
    single goroutine, so an event delivered while the startup pull is
    running (pulling true) stays buffered in the fsnotify channel; when
    the loop returns to the select the flag is already false, the event
    passes the guard, re-arms the settle timer, and the timer then
    enqueues a push.  The pulling guard therefore does not discard events
    that arrive during a pull, contrary to the claim. -/
theorem c5_event_during_pull_triggers_push :
    winit.pulling = true ∧
    WStep winit wTrace1 ∧
    WStep wTrace1 wTrace2 ∧
    WStep wTrace2 wTrace3 ∧
    WStep wTrace3 wTrace4 ∧
    wTrace4.settleArmed = true ∧
    WStep wTrace4 wTrace5 ∧
    WStep wTrace5 wTrace6 ∧
    wTrace6.phase = WPhase.pushing := by
  refine ⟨rfl, ?_, ?_, ?_, ?_, rfl, ?_, ?_, rfl⟩
  · exact WStep.deliver winit ("a.txt".toList)
  · exact WStep.startupPullDone wTrace1 rfl
  · exact WStep.startupPushDone wTrace2 rfl
  · exact WStep.recvArm wTrace3 ("a.txt".toList) [] rfl rfl rfl (by decide)
  · exact WStep.timerFire wTrace4 rfl
  · exact WStep.recvPush wTrace5 rfl rfl

theorem wreach_flag_discipline (s : WState) (h : WReach s) :
    (s.phase = WPhase.atSelect → s.pulling = false) ∧
    ((s.phase = WPhase.startupPull ∨ s.phase = WPhase.pollPull) → s.pulling = true) ∧
    ((s.phase = WPhase.startupPush ∨ s.phase = WPhase.pushing) → s.pulling = false) := by
  induction h with
  | refl =>
    refine ⟨?_, ?_, ?_⟩ <;> intro hph <;> first | rfl | (rcases hph with h1 | h1 <;> cases h1)
  | tail hsteps hstep ih =>
    cases hstep <;> simp_all

theorem pushFresh_notes (env : PushEnv) (s : PushSt) (rel n : GoStr) (b : Bytes)
    (m : Int) (rp : GoStr) : (pushFresh env s rel n b m rp).notes = s.notes := by
  unfold pushFresh
  dsimp only
  repeat' split
  all_goals rfl

theorem pushConflictCheck_notes (env : PushEnv) (s : PushSt) (rel : GoStr)
    (rf : RemoteFileEntry) : (pushConflictCheck env s rel rf).notes = s.notes := by
  unfold pushConflictCheck
  dsimp only
  repeat' split
  all_goals rfl

theorem pushConflictCheck_calls (env : PushEnv) (s : PushSt) (rel : GoStr)
    (rf : RemoteFileEntry) :
    ∀ c ∈ (pushConflictCheck env s rel rf).calls,
      c ∈ s.calls ∨ c = PushCall.conflictDownload rel rf.id := by
  unfold pushConflictCheck
  dsimp only
  repeat' split
  all_goals intro c hc
  all_goals try exact Or.inl hc
  all_goals try simp only [List.mem_append, List.mem_singleton] at hc
  all_goals exact hc

theorem pushExisting_notes (env : PushEnv) (s : PushSt) (rel n : GoStr) (b : Bytes)
    (m : Int) (rp : GoStr) (rf : RemoteFileEntry) :
    (pushExisting env s rel n b m rp rf).notes = s.notes := by
  unfold pushExisting
  dsimp only
  repeat' split
  all_goals first
    | rfl
    | (rw [pushFresh_notes, pushConflictCheck_notes])
    | (rw [pushConflictCheck_notes])

theorem pushFile_notes (env : PushEnv) (s : PushSt) (rel n : GoStr) (b : Bytes) (m : Int) :
    (pushFile env s rel n b m).notes = s.notes := by
  unfold pushFile
  dsimp only
  repeat' split
  all_goals first
    | rfl
    | exact pushExisting_notes _ _ _ _ _ _ _ _
    | exact pushFresh_notes _ _ _ _ _ _ _

theorem pushDir_notes (env : PushEnv) (rootD : RemoteDir) (s : PushSt) (rel n : GoStr) :
    (pushDir env rootD s rel n).notes = s.notes := by
  unfold pushDir
  dsimp only
  repeat' split
  all_goals rfl

mutual

theorem pushWalk_notes (env : PushEnv) (rootD : RemoteDir) (s : PushSt) (relPath : GoStr) :
    ∀ e : FsEntry, (pushWalk env rootD s relPath e).notes = s.notes
  | FsEntry.file n b m => by
    unfold pushWalk
    split
    · rfl
    · exact pushFile_notes _ _ _ _ _ _
  | FsEntry.dir n cs => by
    unfold pushWalk
    split
    · rfl
    · split
      · rfl
      · rw [pushWalkList_notes env rootD _ _ cs, pushDir_notes]
termination_by e => sizeOf e

theorem pushWalkList_notes (env : PushEnv) (rootD : RemoteDir) :
    ∀ (s : PushSt) (parentRel : GoStr) (l : List FsEntry),
      (pushWalkList env rootD s parentRel l).notes = s.notes
  | _, _, [] => rfl
  | s, pr, c :: cs => by
    unfold pushWalkList
    rw [pushWalkList_notes env rootD _ _ cs, pushWalk_notes env rootD s _ c]
termination_by s pr l => sizeOf l

end

theorem walkCallOK_createDir (notes : List (GoStr × GoStr)) (rel n pid : GoStr) :
    walkCallOK notes rel n (PushCall.createDir rel n pid) := by
  constructor
  · intro n' h'
    simp [PushCall.nameOf] at h'
    exact h'.symm
  · intro r n' h'
    simp [PushCall.uploadRel] at h'

theorem walkCallOK_conflictDownload (notes : List (GoStr × GoStr)) (rel n r fid : GoStr) :
    walkCallOK notes rel n (PushCall.conflictDownload r fid) := by
  constructor
  · intro n' h'
    simp [PushCall.nameOf] at h'
  · intro r' n' h'
    simp [PushCall.uploadRel] at h'

theorem walkCallOK_createText (notes : List (GoStr × GoStr)) (rel n dirID : GoStr)
    (hconf : goContainsSub n (".conflict".toList) = false) :
    walkCallOK notes rel n (PushCall.createText rel n dirID) := by
  constructor
  · intro n' h'
    simp [PushCall.nameOf] at h'
    exact h'.symm
  · intro r n' h'
    simp [PushCall.uploadRel] at h'
    refine ⟨h'.1.symm, h'.2.symm, ?_⟩
    intro hcc
    rw [← h'.2] at hcc
    rw [hconf] at hcc
    cases hcc

theorem walkCallOK_uploadBin (notes : List (GoStr × GoStr)) (rel n dirID : GoStr)
    (hconf : goContainsSub n (".conflict".toList) = false) :
    walkCallOK notes rel n (PushCall.uploadBin rel n dirID) := by
  constructor
  · intro n' h'
    simp [PushCall.nameOf] at h'
    exact h'.symm
  · intro r n' h'
    simp [PushCall.uploadRel] at h'
    refine ⟨h'.1.symm, h'.2.symm, ?_⟩
    intro hcc
    rw [← h'.2] at hcc
    rw [hconf] at hcc
    cases hcc

theorem walkCallOK_updateText (notes : List (GoStr × GoStr)) (rel n fid : GoStr)
    (hconf : goContainsSub n (".conflict".toList) = false) :
    walkCallOK notes rel n (PushCall.updateText rel n fid) := by
  constructor
  · intro n' h'
    simp [PushCall.nameOf] at h'
    exact h'.symm
  · intro r n' h'
    simp [PushCall.uploadRel] at h'
    refine ⟨h'.1.symm, h'.2.symm, ?_⟩
    intro hcc
    rw [← h'.2] at hcc
    rw [hconf] at hcc
    cases hcc

theorem walkCallOK_updateNote (notes : List (GoStr × GoStr)) (rel n nid : GoStr)
    (hnote : lookupA notes rel ≠ none) :
    walkCallOK notes rel n (PushCall.updateNote rel n nid) := by
  constructor
  · intro n' h'
    simp [PushCall.nameOf] at h'
    exact h'.symm
  · intro r n' h'
    simp [PushCall.uploadRel] at h'
    refine ⟨h'.1.symm, h'.2.symm, ?_⟩
    intro _
    rw [← h'.1]
    exact hnote

theorem pushFresh_calls (env : PushEnv) (s : PushSt) (rel n : GoStr) (b : Bytes)
    (m : Int) (rp : GoStr)
    (hconf : goContainsSub n (".conflict".toList) = false) :
    ∀ c ∈ (pushFresh env s rel n b m rp).calls,
      c ∈ s.calls ∨ walkCallOK s.notes rel n c := by
  unfold pushFresh
  dsimp only
  repeat' split
  all_goals intro c hc
  all_goals try exact Or.inl hc
  all_goals rcases List.mem_append.mp hc with h | h
  all_goals try exact Or.inl h
  all_goals rw [List.mem_singleton] at h
  all_goals rw [h]
  all_goals right
  all_goals first
    | exact walkCallOK_createText _ _ _ _ hconf
    | exact walkCallOK_uploadBin _ _ _ _ hconf

theorem pushExisting_calls (env : PushEnv) (s : PushSt) (rel n : GoStr) (b : Bytes)
    (m : Int) (rp : GoStr) (rf : RemoteFileEntry)
    (hconf : goContainsSub n (".conflict".toList) = false) :
    ∀ c ∈ (pushExisting env s rel n b m rp rf).calls,
      c ∈ s.calls ∨ walkCallOK s.notes rel n c := by
  have hcc : ∀ c, c ∈ (pushConflictCheck env s rel rf).calls →
      c ∈ s.calls ∨ walkCallOK s.notes rel n c := by
    intro c hc
    rcases pushConflictCheck_calls env s rel rf c hc with h | h
    · exact Or.inl h
    · rw [h]
      exact Or.inr (walkCallOK_conflictDownload _ _ _ _ _)
  unfold pushExisting
  dsimp only
  split
  · intro c hc
    exact Or.inl hc
  · split
    · intro c hc
      exact Or.inl hc
    · split
      · intro c hc
        exact Or.inl hc
      · split
        · split
          all_goals intro c hc
          all_goals rcases List.mem_append.mp hc with h | h
          all_goals try exact hcc c h
          all_goals rw [List.mem_singleton] at h
          all_goals rw [h]
          all_goals exact Or.inr (walkCallOK_updateText _ _ _ _ hconf)
        · intro c hc
          rcases pushFresh_calls env (pushConflictCheck env s rel rf) rel n b m rp hconf c hc
              with h | h
          · exact hcc c h
          · rw [pushConflictCheck_notes] at h
            exact Or.inr h

theorem pushFile_calls (env : PushEnv) (s : PushSt) (rel n : GoStr) (b : Bytes)
    (m : Int) :
    ∀ c ∈ (pushFile env s rel n b m).calls,
      c ∈ s.calls ∨ walkCallOK s.notes rel n c := by
  unfold pushFile
  dsimp only
  split
  · intro c hc
    exact Or.inl hc
  · split
    · rename_i noteID hnote
      have hid : lookupA s.notes rel ≠ none := by
        rw [hnote]
        exact fun e => Option.noConfusion e
      split
      all_goals split
      all_goals try (intro c hc; exact Or.inl hc)
      all_goals split
      all_goals intro c hc
      all_goals rcases List.mem_append.mp hc with h | h
      all_goals try exact Or.inl h
      all_goals rw [List.mem_singleton] at h
      all_goals rw [h]
      all_goals exact Or.inr (walkCallOK_updateNote _ _ _ _ hid)
    · split
      · intro c hc
        exact Or.inl hc
      · rename_i hconfT
        have hconf : goContainsSub n (".conflict".toList) = false := by
          simpa using hconfT
        split
        · intro c hc
          exact pushExisting_calls env s rel n b m _ _ hconf c hc
        · intro c hc
          exact pushFresh_calls env s rel n b m _ hconf c hc

theorem pushDir_calls (env : PushEnv) (rootD : RemoteDir) (s : PushSt) (rel n : GoStr) :
    ∀ c ∈ (pushDir env rootD s rel n).calls,
      c ∈ s.calls ∨ walkCallOK s.notes rel n c := by
  unfold pushDir
  dsimp only
  split
  · intro c hc
    exact Or.inl hc
  · split
    all_goals intro c hc
    all_goals rcases List.mem_append.mp hc with h | h
    all_goals try exact Or.inl h
    all_goals rw [List.mem_singleton] at h
    all_goals rw [h]
    all_goals exact Or.inr (walkCallOK_createDir _ _ _ _)

mutual

theorem pushWalk_calls (env : PushEnv) (rootD : RemoteDir) (s : PushSt) (relPath : GoStr) :
    ∀ e : FsEntry, ∀ c ∈ (pushWalk env rootD s relPath e).calls,
      c ∈ s.calls ∨ ∃ rel n, ([ '.' ]).isPrefixOf n = false ∧ walkCallOK s.notes rel n c
  | FsEntry.file n b m => by
    unfold pushWalk
    split
    · intro c hc
      exact Or.inl hc
    · rename_i hidT
      have hid : ([ '.' ]).isPrefixOf n = false := by
        exact Bool.eq_false_iff.mpr hidT
      intro c hc
      rcases pushFile_calls env s relPath n b m c hc with h | h
      · exact Or.inl h
      · exact Or.inr ⟨relPath, n, hid, h⟩
  | FsEntry.dir n cs => by
    unfold pushWalk
    split
    · intro c hc
      exact Or.inl hc
    · split
      · intro c hc
        exact Or.inl hc
      · rename_i hidT _
        have hid : ([ '.' ]).isPrefixOf n = false := by
          exact Bool.eq_false_iff.mpr hidT
        intro c hc
        rcases pushWalkList_calls env rootD (pushDir env rootD s relPath n) relPath cs c hc
            with h | h
        · rcases pushDir_calls env rootD s relPath n c h with h2 | h2
          · exact Or.inl h2
          · exact Or.inr ⟨relPath, n, hid, h2⟩
        · rw [pushDir_notes] at h
          exact Or.inr h
termination_by e => sizeOf e

theorem pushWalkList_calls (env : PushEnv) (rootD : RemoteDir) :
    ∀ (s : PushSt) (parentRel : GoStr) (l : List FsEntry),
      ∀ c ∈ (pushWalkList env rootD s parentRel l).calls,
        c ∈ s.calls ∨ ∃ rel n, ([ '.' ]).isPrefixOf n = false ∧ walkCallOK s.notes rel n c
  | _, _, [] => by
    intro c hc
    exact Or.inl hc
  | s, pr, e :: cs => by
    unfold pushWalkList
    intro c hc
    rcases pushWalkList_calls env rootD (pushWalk env rootD s (childRel pr e.name) e) pr cs c hc
        with h | h
    · rcases pushWalk_calls env rootD s (childRel pr e.name) e c h with h2 | h2
      · exact Or.inl h2
      · exact Or.inr h2
    · rw [pushWalk_notes] at h
      exact Or.inr h
termination_by s pr l => sizeOf l

end

/-- C6: the claim as stated is refuted by the fixture tree: the walk
    uploads a file whose name ends with .izerop-tmp as a fresh text file,
    updates the remote note of a tracked file whose name contains
    .conflict, and creates a remote directory whose name contains
    .conflict. -/
theorem c6_counterexample :
    PushCall.createText ("a.izerop-tmp".toList) ("a.izerop-tmp".toList) ("d1".toList) ∈
      (pushWalkRoot fixPushEnv ⟨"d1".toList⟩ fixPushSt ("root".toList) fixTree).calls ∧
    (".izerop-tmp".toList).isSuffixOf ("a.izerop-tmp".toList) = true ∧
    PushCall.updateNote ("b.conflict.txt".toList) ("b.conflict.txt".toList) ("n1".toList) ∈
      (pushWalkRoot fixPushEnv ⟨"d1".toList⟩ fixPushSt ("root".toList) fixTree).calls ∧
    goContainsSub ("b.conflict.txt".toList) (".conflict".toList) = true ∧
    PushCall.createDir ("c.conflict".toList) ("c.conflict".toList) ("d1".toList) ∈
      (pushWalkRoot fixPushEnv ⟨"d1".toList⟩ fixPushSt ("root".toList) fixTree).calls ∧
    goContainsSub ("c.conflict".toList) (".conflict".toList) = true := by
  decide

/-- C6 (amended): every remote call the push walk adds belongs to a
    non-hidden entry name, names the entry it is for, uploads only at
    the relative path being visited, and uploads a name containing
    .conflict only when that path is tracked as a note; a hidden
    directory or file is skipped outright, the directory with its whole
    subtree, so the walk result is the unchanged state. There is no
    .izerop-tmp filter in the walk, and conflict-named files tracked as
    notes or conflict-named directories are not skipped. -/
theorem c6_push_walk_skips :
    (∀ (env : PushEnv) (rootD : RemoteDir) (s : PushSt) (rootName : GoStr)
        (children : List FsEntry) (c : PushCall),
      c ∈ (pushWalkRoot env rootD s rootName children).calls →
      c ∈ s.calls ∨
        ∃ rel n, ([ '.' ]).isPrefixOf n = false ∧ walkCallOK s.notes rel n c) ∧
    (∀ (env : PushEnv) (rootD : RemoteDir) (s : PushSt) (relPath n : GoStr)
        (cs : List FsEntry), ([ '.' ]).isPrefixOf n = true →
      pushWalk env rootD s relPath (FsEntry.dir n cs) = s) ∧
    (∀ (env : PushEnv) (rootD : RemoteDir) (s : PushSt) (relPath n : GoStr)
        (b : Bytes) (m : Int), ([ '.' ]).isPrefixOf n = true →
      pushWalk env rootD s relPath (FsEntry.file n b m) = s) := by
  refine ⟨?_, ?_, ?_⟩
  · intro env rootD s rootName children c hc
    unfold pushWalkRoot at hc
    split at hc
    · exact Or.inl hc
    · exact pushWalkList_calls env rootD s [] children c hc
  · intro env rootD s relPath n cs h
    simp only [pushWalk, h, if_true]
  · intro env rootD s relPath n b m h
    simp only [pushWalk, h, if_true]

/-- C6 witness: the call property instantiated on the conflict-named
    directory creation of the fixture walk, and the subtree-skip equation
    instantiated on a .git directory. -/
theorem c6_push_walk_skips_witness :
    (PushCall.createDir ("c.conflict".toList) ("c.conflict".toList) ("d1".toList) ∈
        (pushWalkRoot fixPushEnv ⟨"d1".toList⟩ fixPushSt ("root".toList) fixTree).calls ∧
      (PushCall.createDir ("c.conflict".toList) ("c.conflict".toList) ("d1".toList) ∈
          fixPushSt.calls ∨
        ∃ rel n, ([ '.' ]).isPrefixOf n = false ∧ walkCallOK fixPushSt.notes rel n
          (PushCall.createDir ("c.conflict".toList) ("c.conflict".toList) ("d1".toList)))) ∧
    (([ '.' ]).isPrefixOf (".git".toList) = true ∧
      pushWalk fixPushEnv ⟨"d1".toList⟩ fixPushSt ("sub".toList)
        (FsEntry.dir (".git".toList) [FsEntry.file ("x".toList) [4] 13]) = fixPushSt) :=
  ⟨⟨by decide,
    c6_push_walk_skips.1 fixPushEnv ⟨"d1".toList⟩ fixPushSt ("root".toList) fixTree
      (PushCall.createDir ("c.conflict".toList) ("c.conflict".toList) ("d1".toList))
      (by decide)⟩,
   ⟨by decide,
    c6_push_walk_skips.2.1 fixPushEnv ⟨"d1".toList⟩ fixPushSt ("sub".toList)
      (".git".toList) [FsEntry.file ("x".toList) [4] 13] (by decide)⟩⟩
